import Mathlib

/-!
Verification development for the CommonEVMContractDashboard repository.

The repository is a browser dashboard written in JavaScript/React.  The
functions under verification are the pure helpers of its main module:
the decimal-scaling value codec (`parseDecimalWithExponent`,
`parseInputValue`), the read-call retry/fallback driver (`retryCall`,
`callReadWithFallback`), the ABI parameter-tree builder
(`buildParamNodes`), the call-value assembler (`buildChildrenCallValue`,
`buildNodeCallValue`), the display formatter (`formatValue`), and the
template store (`sanitizeTemplate`, `loadTemplatesFromStorage`,
template import).

JavaScript values are shallowly embedded by the inductive type `JsValue`
below; JS numbers are idealized as exact rationals (`ℚ`) — the claims
under consideration never depend on floating-point rounding.  External
builtins (`JSON.parse`, `localStorage`, `Date.now`, `Math.random`) are
modelled as explicit parameters; everything else is translated directly
from the source.
-/

deriving instance DecidableEq for Except

namespace Dash

/-- Model of a JavaScript runtime value (as far as the dashboard's helper
functions observe it).  `vNum` carries an exact rational in place of an
IEEE double; `NaN` and the infinities are not representable (no claim
depends on them). -/
inductive JsValue where
  | vUndef : JsValue
  | vNull : JsValue
  | vBool (b : Bool) : JsValue
  | vNum (q : ℚ) : JsValue
  | vBigInt (n : Int) : JsValue
  | vStr (s : String) : JsValue
  | vArr (xs : List JsValue) : JsValue
  | vObj (fs : List (String × JsValue)) : JsValue
deriving Repr

/-- The JS whitespace characters recognised by `String.prototype.trim`
(the common ones; exotic Unicode space separators are omitted, no claim
uses them). -/
def isJsWhitespace (c : Char) : Bool :=
  c = ' ' || c = '\t' || c = '\n' || c = '\r' || c = '\x0b' || c = '\x0c' ||
  c = ' ' || c = '﻿'

/-- `trim` on a character list: drop whitespace from both ends. -/
def jsTrimList (l : List Char) : List Char :=
  ((l.dropWhile isJsWhitespace).reverse.dropWhile isJsWhitespace).reverse

/-- JS `String.prototype.trim`. -/
def jsTrim (s : String) : String := String.mk (jsTrimList s.data)

/-- Decimal value of a digit string (the JS `BigInt("digits…")` on an
all-digit string). -/
def digitsVal (l : List Char) : Nat :=
  l.foldl (fun a c => a * 10 + (c.toNat - 48)) 0

/-- `BigInt` of an all-digit `String`. -/
def digitsToNat (s : String) : Nat := digitsVal s.data

/-- `s.split(c)` for a one-character separator, on character lists
(kernel-computable, unlike `String.splitOn`). -/
def splitOnCharAux (c : Char) : List Char → List Char → List (List Char)
  | [], acc => [acc.reverse]
  | x :: xs, acc =>
    if x = c then acc.reverse :: splitOnCharAux c xs []
    else splitOnCharAux c xs (x :: acc)

/-- `s.split(c)` on a character list. -/
def splitOnChar (c : Char) (l : List Char) : List (List Char) :=
  splitOnCharAux c l []

/-- The test `/^\d+(\.\d+)?$/.test s`: digits, optionally followed by a
dot and at least one digit. -/
def isDecimalChars (l : List Char) : Bool :=
  match splitOnChar '.' l with
  | [w] => !w.isEmpty && w.all Char.isDigit
  | [w, f] => !w.isEmpty && !f.isEmpty && w.all Char.isDigit && f.all Char.isDigit
  | _ => false

/-- JS `ToLength` on an exact number: clamp below by 0 and truncate to an
integer (used by `String.prototype.padEnd`). -/
def toLengthNat (q : ℚ) : Nat := if q ≤ 0 then 0 else q.floor.toNat

/-- `s.padEnd(n, "0")` on a character list. -/
def padEndZeros (l : List Char) (n : Nat) : List Char :=
  l ++ List.replicate (n - l.length) '0'

/-- Rendering of a JS number into a string (template literals, `String()`).
Exact for integral values — the only numbers the claims print; the
non-integral fallback is an idealisation (never empty, as in JS). -/
def qToJsString (q : ℚ) : String :=
  if q.den = 1 then toString q.num else toString q.num ++ "/" ++ toString q.den

/-- `pre.isPrefixOf s` on the underlying characters: JS `s.startsWith(pre)`. -/
def strStartsWith (s pre : String) : Bool := pre.data.isPrefixOf s.data

/-- JS `s.endsWith(suf)`. -/
def strEndsWith (s suf : String) : Bool := suf.data.reverse.isPrefixOf s.data.reverse

/-- JS `s.includes(c)` for a single character. -/
def strContainsChar (s : String) (c : Char) : Bool := s.data.contains c

/-- Source `parseDecimalWithExponent(value, exponent)`:
trims, returns `0n` on empty input, validates against `/^\d+(\.\d+)?$/`,
rejects fractions longer than `exponent`, then right-pads the fraction
with zeros to `exponent` digits and reads the concatenation as a BigInt.
The exponent arrives as a JS number, modelled as an exact rational. -/
def parseDecimalWithExponent (value : String) (exponent : ℚ) : Except String Int :=
  let trimmed := jsTrimList value.data
  if trimmed.isEmpty then .ok 0
  else if !(isDecimalChars trimmed) then .error "输入格式不正确，请输入数字。"
  else
    let parts := splitOnChar '.' trimmed
    let whole := parts.headD []
    let fractionRaw := (parts.drop 1).headD []
    if (fractionRaw.length : ℚ) > exponent then
      .error ("小数位过多，最多支持 " ++ qToJsString exponent ++ " 位。")
    else
      let fraction := padEndZeros fractionRaw (toLengthNat exponent)
      .ok (digitsVal (whole ++ fraction))

/-- JS truthiness (`Boolean(v)`). -/
def jsTruthy : JsValue → Bool
  | .vUndef => false
  | .vNull => false
  | .vBool b => b
  | .vNum q => if q = 0 then false else true
  | .vBigInt n => if n = 0 then false else true
  | .vStr s => !s.isEmpty
  | .vArr _ => true
  | .vObj _ => true

/-- `typeof v === "object"` (true for `null`, arrays and plain objects). -/
def isObjectType : JsValue → Bool
  | .vNull => true
  | .vArr _ => true
  | .vObj _ => true
  | _ => false

/-- `Array.isArray v`. -/
def isArrayVal : JsValue → Bool
  | .vArr _ => true
  | _ => false

/-- Plain (non-array, non-null) object. -/
def isPlainObj : JsValue → Bool
  | .vObj _ => true
  | _ => false

mutual

/-- JS `String(v)` coercion.  Array elements that are `null`/`undefined`
render as the empty string (`Array.prototype.join` semantics). -/
def jsToString : JsValue → String
  | .vUndef => "undefined"
  | .vNull => "null"
  | .vBool b => cond b "true" "false"
  | .vNum q => qToJsString q
  | .vBigInt n => toString n
  | .vStr s => s
  | .vArr xs => String.intercalate "," (joinParts xs)
  | .vObj _ => "[object Object]"

/-- The element strings of `Array.prototype.join`. -/
def joinParts : List JsValue → List String
  | [] => []
  | .vNull :: xs => "" :: joinParts xs
  | .vUndef :: xs => "" :: joinParts xs
  | x :: xs => jsToString x :: joinParts xs

end

/-- Value of a digit list in base `b` (digits `0`–`9`, `a`–`f`, `A`–`F`). -/
def digitsValBase (b : Nat) (l : List Char) : Nat :=
  l.foldl (fun a c =>
    a * b + (if c.isDigit then c.toNat - 48
             else if 'a' ≤ c && c ≤ 'f' then c.toNat - 87
             else if 'A' ≤ c && c ≤ 'F' then c.toNat - 55
             else 0)) 0

/-- Is `c` a digit admissible in base `b` (`b` ∈ {2, 8, 16})? -/
def isBaseDigit (b : Nat) (c : Char) : Bool :=
  if b = 16 then c.isDigit || ('a' ≤ c && c ≤ 'f') || ('A' ≤ c && c ≤ 'F')
  else if b = 8 then '0' ≤ c && c ≤ '7'
  else c = '0' || c = '1'

/-- Split `l` at the first character satisfying `p` (separator dropped). -/
def breakOnChar (p : Char → Bool) : List Char → List Char × Option (List Char)
  | [] => ([], none)
  | x :: xs =>
    if p x then ([], some xs)
    else
      let r := breakOnChar p xs
      (x :: r.1, r.2)

/-- Unsigned decimal literal `digits [. digits] [eE [sign] digits]` as an
exact rational; `none` when malformed. -/
def parseUnsignedDecimal (l : List Char) : Option ℚ :=
  let (mant, expPart) := breakOnChar (fun c => c = 'e' || c = 'E') l
  let mval : Option ℚ :=
    match splitOnChar '.' mant with
    | [w] => if !w.isEmpty && w.all Char.isDigit then some (digitsVal w) else none
    | [w, f] =>
      if (!w.isEmpty || !f.isEmpty) && w.all Char.isDigit && f.all Char.isDigit then
        some ((digitsVal w : ℚ) + (digitsVal f : ℚ) / (10 : ℚ) ^ f.length)
      else none
    | _ => none
  match mval, expPart with
  | none, _ => none
  | some m, none => some m
  | some m, some e =>
    let (sign, digits) : Int × List Char :=
      match e with
      | '+' :: rest => (1, rest)
      | '-' :: rest => (-1, rest)
      | rest => (1, rest)
    if !digits.isEmpty && digits.all Char.isDigit then
      some (m * (10 : ℚ) ^ (sign * (digitsVal digits : Int)))
    else none

/-- JS `Number(string)` (the `StringNumericLiteral` grammar), with `NaN`
as `none`.  `Infinity` is idealised as `NaN` (no claim observes it). -/
def stringToNumber (s : String) : Option ℚ :=
  let t := jsTrimList s.data
  match t with
  | [] => some 0
  | '0' :: 'x' :: rest => if !rest.isEmpty && rest.all (isBaseDigit 16) then some (digitsValBase 16 rest) else none
  | '0' :: 'X' :: rest => if !rest.isEmpty && rest.all (isBaseDigit 16) then some (digitsValBase 16 rest) else none
  | '0' :: 'o' :: rest => if !rest.isEmpty && rest.all (isBaseDigit 8) then some (digitsValBase 8 rest) else none
  | '0' :: 'O' :: rest => if !rest.isEmpty && rest.all (isBaseDigit 8) then some (digitsValBase 8 rest) else none
  | '0' :: 'b' :: rest => if !rest.isEmpty && rest.all (isBaseDigit 2) then some (digitsValBase 2 rest) else none
  | '0' :: 'B' :: rest => if !rest.isEmpty && rest.all (isBaseDigit 2) then some (digitsValBase 2 rest) else none
  | '+' :: rest => parseUnsignedDecimal rest
  | '-' :: rest => (parseUnsignedDecimal rest).map Neg.neg
  | _ => parseUnsignedDecimal t

/-- JS `Number(v)` coercion (`ToNumber`); `none` is `NaN`. -/
def jsToNumber : JsValue → Option ℚ
  | .vUndef => none
  | .vNull => some 0
  | .vBool b => some (cond b 1 0)
  | .vNum q => some q
  | .vBigInt n => some (n : ℚ)
  | .vStr s => stringToNumber s
  | .vArr xs => stringToNumber (jsToString (.vArr xs))
  | .vObj fs => stringToNumber (jsToString (.vObj fs))

/-- JS `BigInt(string)`: optional sign with decimal digits, or an
unsigned `0x`/`0o`/`0b` literal; empty (trimmed) input is `0n`; anything
else throws a `SyntaxError`. -/
def jsBigInt (s : String) : Except String Int :=
  let t := jsTrimList s.data
  match t with
  | [] => .ok 0
  | '0' :: 'x' :: rest => if !rest.isEmpty && rest.all (isBaseDigit 16) then .ok (digitsValBase 16 rest) else .error "Cannot convert to a BigInt"
  | '0' :: 'X' :: rest => if !rest.isEmpty && rest.all (isBaseDigit 16) then .ok (digitsValBase 16 rest) else .error "Cannot convert to a BigInt"
  | '0' :: 'o' :: rest => if !rest.isEmpty && rest.all (isBaseDigit 8) then .ok (digitsValBase 8 rest) else .error "Cannot convert to a BigInt"
  | '0' :: 'O' :: rest => if !rest.isEmpty && rest.all (isBaseDigit 8) then .ok (digitsValBase 8 rest) else .error "Cannot convert to a BigInt"
  | '0' :: 'b' :: rest => if !rest.isEmpty && rest.all (isBaseDigit 2) then .ok (digitsValBase 2 rest) else .error "Cannot convert to a BigInt"
  | '0' :: 'B' :: rest => if !rest.isEmpty && rest.all (isBaseDigit 2) then .ok (digitsValBase 2 rest) else .error "Cannot convert to a BigInt"
  | '+' :: rest => if !rest.isEmpty && rest.all Char.isDigit then .ok (digitsVal rest) else .error "Cannot convert to a BigInt"
  | '-' :: rest => if !rest.isEmpty && rest.all Char.isDigit then .ok (-(digitsVal rest : Int)) else .error "Cannot convert to a BigInt"
  | _ => if t.all Char.isDigit then .ok (digitsVal t) else .error "Cannot convert to a BigInt"

/-- First binding of `k` in an object's fields (`undefined` when absent).
Real JS objects never carry duplicate keys, so first-match is exact. -/
def objGet (fs : List (String × JsValue)) (k : String) : JsValue :=
  match fs.find? (fun p => p.1 == k) with
  | some p => p.2
  | none => JsValue.vUndef

/-- Does the object have own property `k`? -/
def objHas (fs : List (String × JsValue)) (k : String) : Bool :=
  fs.any (fun p => p.1 == k)

/-- The canonical array-index reading of a property key (`"7"`, not
`"07"`). -/
def canonicalIndex (k : String) : Option Nat :=
  match k.data with
  | [] => none
  | l =>
    if l.all Char.isDigit && (l = ['0'] || l.head? ≠ some '0') then some (digitsVal l)
    else none

/-- JS property access `v[k]` as the guarded dashboard code performs it
(on `null`/`undefined` the code never dereferences, so those yield
`undefined` here). -/
def propGet : JsValue → String → JsValue
  | .vObj fs, k => objGet fs k
  | .vArr xs, k =>
    if k == "length" then .vNum xs.length
    else
      match canonicalIndex k with
      | some i => xs.getD i .vUndef
      | none => .vUndef
  | .vStr s, k =>
    if k == "length" then .vNum s.data.length
    else
      match canonicalIndex k with
      | some i =>
        match s.data.get? i with
        | some c => .vStr (String.mk [c])
        | none => .vUndef
      | none => .vUndef
  | _, _ => JsValue.vUndef

/-- `Object.entries(v)` (insertion order for plain objects; index order
for arrays). -/
def jsEntries : JsValue → List (String × JsValue)
  | .vObj fs => fs
  | .vArr xs => (xs.enum).map (fun p => (toString p.1, p.2))
  | _ => []

/-- Nullish coalescing `v ?? d`. -/
def nullishD (v d : JsValue) : JsValue :=
  match v with
  | .vUndef => d
  | .vNull => d
  | x => x

/-- Logical-or default `v || d` (JS returns `d` when `v` is falsy). -/
def orD (v d : JsValue) : JsValue := if jsTruthy v then v else d

/-- JS object assignment `m[k] = v`: overwrite in place if the key
exists, else append. -/
def upsert {α : Type} (m : List (String × α)) (k : String) (v : α) : List (String × α) :=
  if m.any (fun p => p.1 == k) then m.map (fun p => if p.1 == k then (k, v) else p)
  else m ++ [(k, v)]

/-- Escape a string for a JSON literal (quotes and backslashes; control
characters do not appear in the values the claims touch). -/
def jsonQuote (s : String) : String :=
  "\"" ++ String.mk (s.data.flatMap fun c =>
    if c = '"' || c = '\\' then ['\\', c] else [c]) ++ "\""

mutual

/-- `JSON.stringify v` (compact form): `.error ()` when serialisation
throws (a BigInt anywhere), `.ok none` when the top value is omitted
(`undefined`). -/
def jsonStringify : JsValue → Except Unit (Option String)
  | .vUndef => .ok none
  | .vNull => .ok (some "null")
  | .vBool b => .ok (some (cond b "true" "false"))
  | .vNum q => .ok (some (qToJsString q))
  | .vBigInt _ => .error ()
  | .vStr s => .ok (some (jsonQuote s))
  | .vArr xs =>
    match jsonStringifyArr xs with
    | .error e => .error e
    | .ok parts => .ok (some ("[" ++ String.intercalate "," parts ++ "]"))
  | .vObj fs =>
    match jsonStringifyObj fs with
    | .error e => .error e
    | .ok parts => .ok (some ("\x7b" ++ String.intercalate "," parts ++ "\x7d"))

/-- Array element serialisations (`undefined` renders as `null`). -/
def jsonStringifyArr : List JsValue → Except Unit (List String)
  | [] => .ok []
  | x :: xs =>
    match jsonStringify x, jsonStringifyArr xs with
    | .error e, _ => .error e
    | _, .error e => .error e
    | .ok none, .ok rest => .ok ("null" :: rest)
    | .ok (some s), .ok rest => .ok (s :: rest)

/-- Object member serialisations (`undefined` values are omitted). -/
def jsonStringifyObj : List (String × JsValue) → Except Unit (List String)
  | [] => .ok []
  | (k, v) :: fs =>
    match jsonStringify v, jsonStringifyObj fs with
    | .error e, _ => .error e
    | _, .error e => .error e
    | .ok none, .ok rest => .ok rest
    | .ok (some s), .ok rest => .ok ((jsonQuote k ++ ":" ++ s) :: rest)

end

/-- Source `toInputString(value)`. -/
def toInputString : JsValue → String
  | .vUndef => ""
  | .vNull => ""
  | .vStr s => s
  | .vArr xs =>
    (match jsonStringify (.vArr xs) with
     | .ok (some s) => s
     | _ => jsToString (.vArr xs))
  | .vObj fs =>
    (match jsonStringify (.vObj fs) with
     | .ok (some s) => s
     | _ => jsToString (.vObj fs))
  | v => jsToString v

/-! ### Read retry and explorer fallback (`retryCall`, `callReadWithFallback`)

The asynchronous call is determinised by an oracle `f : Nat → Except E A`
giving the outcome of attempt `i`.  Alongside the result we return the
trace of attempt indices performed and of the sleeps awaited (in ms),
so that the retry policy itself is in the model. -/

/-- Loop body of `retryCall` with `n` attempts remaining, next attempt
index `i` and last error seen.  Mirrors
`for (let i = 0; i < attempts; i += 1) { try { return await fn(i) } catch
{ last = e; if (i < attempts - 1) await sleep(delayMs) } } throw last`.
Result: outcome (with `.error none` for the vacuous `attempts = 0` case,
where the JS code throws `undefined`), attempt indices, sleeps. -/
def retryAux {E A : Type} (f : Nat → Except E A) (delayMs : Nat) :
    Nat → Nat → Option E → Except (Option E) A × List Nat × List Nat
  | 0, _, last => (.error last, [], [])
  | n + 1, i, _ =>
    match f i with
    | .ok a => (.ok a, [i], [])
    | .error e =>
      if n = 0 then (.error (some e), [i], [])
      else
        let r := retryAux f delayMs n (i + 1) (some e)
        (r.1, i :: r.2.1, delayMs :: r.2.2)

/-- Source `retryCall(fn, attempts = 3, delayMs = 400)`. -/
def retryCall {E A : Type} (f : Nat → Except E A) (attempts : Nat := 3)
    (delayMs : Nat := 400) : Except (Option E) A × List Nat × List Nat :=
  retryAux f delayMs attempts 0 none

/-- Source `callReadWithFallback(fn, args)`, determinised: `rpc i` is the
outcome of the `i`-th `publicClient.readContract` attempt; the explorer
path is `encodeFunctionData` (a pure encoding, `encodeData`), the proxied
`eth_call` (`proxyEthCall`), and `decodeFunctionResult` against the same
ABI entry (`decodeResult`).  Errors are carried as their message
strings. -/
def callReadWithFallback {A : Type} (rpc : Nat → Except String A)
    (encodeData : String) (proxyEthCall : String → Except String String)
    (decodeResult : String → Except String A) :
    Except String A × List Nat × List Nat :=
  match retryCall rpc 3 400 with
  | (.ok a, cs, ss) => (.ok a, cs, ss)
  | (.error rpcError, cs, ss) =>
    match (match proxyEthCall encodeData with
           | .ok raw => decodeResult raw
           | .error e => .error e) with
    | .ok a => (.ok a, cs, ss)
    | .error proxyMessage =>
      let rpcMessage := match rpcError with
                        | some m => m
                        | none => "undefined"
      (.error ("RPC 调用失败（已重试 3 次）：" ++ rpcMessage ++
               "\n浏览器 API 代理调用失败：" ++ proxyMessage), cs, ss)

/-! ### ABI parameters and the parameter tree (`buildParamNodes`) -/

/-- An ABI parameter descriptor: an optional `name`, an optional `type`
string, and optional nested `components` (present on tuple types).
Non-string `name`/`type` JSON values are outside the model. -/
inductive AbiParam where
  | mk (name : Option String) (type : Option String)
      (components : Option (List AbiParam)) : AbiParam
deriving Repr

/-- `param.name`. -/
def AbiParam.nameF : AbiParam → Option String
  | .mk n _ _ => n

/-- `param.type`. -/
def AbiParam.typeF : AbiParam → Option String
  | .mk _ t _ => t

/-- `param.components`. -/
def AbiParam.componentsF : AbiParam → Option (List AbiParam)
  | .mk _ _ c => c

/-- `param.components` as a list (the source only reads it under the
`Array.isArray` guards below). -/
def paramComponents (p : AbiParam) : List AbiParam :=
  (p.componentsF).getD []

/-- Source `isTupleArrayParam(param)`: `param?.type === "tuple[]"` with a
non-empty `components` array. -/
def isTupleArrayParam (p : AbiParam) : Bool :=
  match p with
  | .mk _ (some t) (some cs) => t == "tuple[]" && !cs.isEmpty
  | _ => false

/-- Source `isExpandableTuple(param)`: `param?.type === "tuple"` with a
non-empty `components` array. -/
def isExpandableTuple (p : AbiParam) : Bool :=
  match p with
  | .mk _ (some t) (some cs) => t == "tuple" && !cs.isEmpty
  | _ => false

/-- A node of the parameter tree. -/
inductive ParamNode where
  | leaf (key name type : String) (path : List Nat)
      (components : Option (List AbiParam)) : ParamNode
  | tuple (key name type : String) (path : List Nat)
      (children : List ParamNode) : ParamNode
  | tupleArray (key name type : String) (path : List Nat)
      (children : List ParamNode) : ParamNode
deriving Repr

/-- The node's storage key. -/
def ParamNode.keyF : ParamNode → String
  | .leaf k _ _ _ _ => k
  | .tuple k _ _ _ _ => k
  | .tupleArray k _ _ _ _ => k

/-- The node's display name. -/
def ParamNode.nameF : ParamNode → String
  | .leaf _ n _ _ _ => n
  | .tuple _ n _ _ _ => n
  | .tupleArray _ n _ _ _ => n

/-- The node's type string. -/
def ParamNode.typeF : ParamNode → String
  | .leaf _ _ t _ _ => t
  | .tuple _ _ t _ _ => t
  | .tupleArray _ _ t _ _ => t

/-- The node's path. -/
def ParamNode.pathF : ParamNode → List Nat
  | .leaf _ _ _ p _ => p
  | .tuple _ _ _ p _ => p
  | .tupleArray _ _ _ p _ => p

/-- The node's children (empty for leaves). -/
def ParamNode.childrenF : ParamNode → List ParamNode
  | .leaf _ _ _ _ _ => []
  | .tuple _ _ _ _ cs => cs
  | .tupleArray _ _ _ _ cs => cs

/-- `path.join(".")`. -/
def pathKey (path : List Nat) : String :=
  String.intercalate "." (path.map toString)

/-- `param?.name || ("arg" + index)` (an absent or empty name falls back
to the positional name). -/
def paramDisplayName (p : AbiParam) (index : Nat) : String :=
  match p.nameF with
  | some n => if n = "" then "arg" ++ toString index else n
  | none => "arg" ++ toString index

/-- `param?.type || "unknown"` for leaf nodes. -/
def leafTypeOf (p : AbiParam) : String :=
  match p.typeF with
  | some t => if t = "" then "unknown" else t
  | none => "unknown"

mutual

/-- Source `buildParamNodes(params, path = [], useRelativePath = false)`.
The source computes `currentPath` identically in both branches of its
`useRelativePath` conditional; the conditional is kept faithfully. -/
def buildParamNodes (params : List AbiParam) (path : List Nat)
    (useRelativePath : Bool) : List ParamNode :=
  buildParamNodesFrom params 0 path useRelativePath

/-- The indexed worker behind `params.map((param, index) => …)`. -/
def buildParamNodesFrom (params : List AbiParam) (index : Nat)
    (path : List Nat) (useRelativePath : Bool) : List ParamNode :=
  match params with
  | [] => []
  | param :: rest =>
    buildOneParamNode param index path useRelativePath ::
      buildParamNodesFrom rest (index + 1) path useRelativePath
termination_by sizeOf params

/-- One step of the map in `buildParamNodes`. -/
def buildOneParamNode (param : AbiParam) (index : Nat) (path : List Nat)
    (useRelativePath : Bool) : ParamNode :=
  let currentPath := if useRelativePath then path ++ [index] else path ++ [index]
  let key := pathKey currentPath
  let name := paramDisplayName param index
  if isTupleArrayParam param then
    .tupleArray key name (param.typeF.getD "") currentPath
      (buildParamNodesFrom (paramComponents param) 0 [] true)
  else if isExpandableTuple param then
    .tuple key name (param.typeF.getD "") currentPath
      (buildParamNodesFrom (paramComponents param) 0 currentPath useRelativePath)
  else
    .leaf key name (leafTypeOf param) currentPath param.componentsF
termination_by sizeOf param
decreasing_by
  all_goals
    cases param with
    | mk n t c =>
      cases c
      all_goals simp [paramComponents, AbiParam.componentsF]
      all_goals omega

end

/-! ### The value codec (`parseInputValue`) and call-value assembly -/

/-- Source `parseInputValue(value, type)`.  The external `JSON.parse` is
passed in as `jsonParse` (`.error` models a thrown `SyntaxError`). -/
def parseInputValue (jsonParse : String → Except String JsValue)
    (value type : String) : Except String JsValue :=
  let trimmed := jsTrim value
  if strEndsWith type "]" || strStartsWith type "tuple" then
    if trimmed.isEmpty then .ok (.vArr [])
    else jsonParse trimmed
  else if type = "bool" then .ok (.vBool (trimmed == "true" || trimmed == "1"))
  else if strStartsWith type "uint" || strStartsWith type "int" then
    if trimmed.isEmpty then .ok (.vBigInt 0)
    else (jsBigInt trimmed).map .vBigInt
  else .ok (.vStr trimmed)

/-- Restatement of claim C4's wording of the same function (array types
characterised as "type string ending in `[]`") — for comparison with the
source's `type.endsWith("]")` test. -/
def parseInputValueClaimed (jsonParse : String → Except String JsValue)
    (value type : String) : Except String JsValue :=
  let trimmed := jsTrim value
  if strEndsWith type "[]" || strStartsWith type "tuple" then
    if trimmed.isEmpty then .ok (.vArr [])
    else jsonParse trimmed
  else if type = "bool" then .ok (.vBool (trimmed == "true" || trimmed == "1"))
  else if strStartsWith type "uint" || strStartsWith type "int" then
    if trimmed.isEmpty then .ok (.vBigInt 0)
    else (jsBigInt trimmed).map .vBigInt
  else .ok (.vStr trimmed)

/-- `SCALE_TYPES = new Set(["uint256", "uint128"])`. -/
def SCALE_TYPES : List String := ["uint256", "uint128"]

/-- One row of a tuple-array draft (already normalised by the state
layer: a string per leaf key and a numeric exponent per scalable key). -/
structure TupleArrayRow where
  values : List (String × String)
  exponents : List (String × ℚ)
deriving Repr, DecidableEq

/-- `values[key] || ""` on a draft value map. -/
def lookupStr (m : List (String × String)) (k : String) : String :=
  match m.find? (fun p => p.1 == k) with
  | some p => p.2
  | none => ""

/-- `Number(exponents[key] || 0)` on a draft exponent map (stored values
are already numbers, so the coercion is the identity and a missing or
zero entry gives 0). -/
def lookupQ (m : List (String × ℚ)) (k : String) : ℚ :=
  match m.find? (fun p => p.1 == k) with
  | some p => p.2
  | none => 0

/-- `Array.isArray(tupleArrays[key]) ? tupleArrays[key] : []`. -/
def lookupRows (m : List (String × List TupleArrayRow)) (k : String) :
    List TupleArrayRow :=
  match m.find? (fun p => p.1 == k) with
  | some p => p.2
  | none => []

mutual

/-- Source `buildNodeCallValue(node, values, exponents, tupleArrays)`.
For a scalable leaf with a positive exponent the decimal-scaling parser
runs; with exponent 0 an input containing `.` throws; otherwise the
plain value codec runs.  Tuple nodes assemble their children; tuple-array
nodes assemble one value per stored row (with empty nested
`tupleArrays`). -/
def buildNodeCallValue (jsonParse : String → Except String JsValue)
    (node : ParamNode) (values : List (String × String))
    (exponents : List (String × ℚ))
    (tupleArrays : List (String × List TupleArrayRow)) :
    Except String JsValue :=
  match node with
  | .leaf key _ type _ _ =>
    let rawValue := lookupStr values key
    if SCALE_TYPES.contains type then
      let exponent := lookupQ exponents key
      if exponent > 0 then (parseDecimalWithExponent rawValue exponent).map .vBigInt
      else if strContainsChar rawValue '.' then
        .error "uint 类型不支持小数，请选择 10^n 或改用整数。"
      else parseInputValue jsonParse rawValue type
    else parseInputValue jsonParse rawValue type
  | .tuple _ _ _ _ children =>
    buildChildrenCallValue jsonParse children values exponents tupleArrays
  | .tupleArray key _ _ _ children =>
    let rows := lookupRows tupleArrays key
    (buildRowsCallValue jsonParse children rows).map .vArr
termination_by (sizeOf node, 0)

/-- Source `buildChildrenCallValue(children, values, exponents,
tupleArrays)`: an object keyed by child names when every child has a
truthy (non-empty) name, else a positional array. -/
def buildChildrenCallValue (jsonParse : String → Except String JsValue)
    (children : List ParamNode) (values : List (String × String))
    (exponents : List (String × ℚ))
    (tupleArrays : List (String × List TupleArrayRow)) :
    Except String JsValue :=
  let useObject := children.all fun c => !c.nameF.isEmpty
  if useObject then
    (buildChildrenObject jsonParse children 0 [] values exponents tupleArrays).map .vObj
  else
    (buildChildrenArray jsonParse children values exponents tupleArrays).map .vArr
termination_by (sizeOf children, 1)

/-- The `children.forEach((child, index) => { nextObject[…] = … })` loop,
with `acc` the object built so far. -/
def buildChildrenObject (jsonParse : String → Except String JsValue)
    (children : List ParamNode) (index : Nat)
    (acc : List (String × JsValue)) (values : List (String × String))
    (exponents : List (String × ℚ))
    (tupleArrays : List (String × List TupleArrayRow)) :
    Except String (List (String × JsValue)) :=
  match children with
  | [] => .ok acc
  | c :: rest =>
    match buildNodeCallValue jsonParse c values exponents tupleArrays with
    | .error e => .error e
    | .ok v =>
      let k := if !c.nameF.isEmpty then c.nameF else toString index
      buildChildrenObject jsonParse rest (index + 1) (upsert acc k v) values
        exponents tupleArrays
termination_by (sizeOf children, 0)

/-- The `children.map(child => buildNodeCallValue(…))` branch. -/
def buildChildrenArray (jsonParse : String → Except String JsValue)
    (children : List ParamNode) (values : List (String × String))
    (exponents : List (String × ℚ))
    (tupleArrays : List (String × List TupleArrayRow)) :
    Except String (List JsValue) :=
  match children with
  | [] => .ok []
  | c :: rest =>
    match buildNodeCallValue jsonParse c values exponents tupleArrays with
    | .error e => .error e
    | .ok v =>
      match buildChildrenArray jsonParse rest values exponents tupleArrays with
      | .error e => .error e
      | .ok vs => .ok (v :: vs)
termination_by (sizeOf children, 0)

/-- The `rows.map(row => buildChildrenCallValue(node.children,
row.values, row.exponents, {}))` loop of the tuple-array case (the
defensive object checks on `row.values`/`row.exponents` are identities on
the typed rows). -/
def buildRowsCallValue (jsonParse : String → Except String JsValue)
    (children : List ParamNode) (rows : List TupleArrayRow) :
    Except String (List JsValue) :=
  match rows with
  | [] => .ok []
  | row :: rest =>
    match buildChildrenCallValue jsonParse children row.values row.exponents [] with
    | .error e => .error e
    | .ok v =>
      match buildRowsCallValue jsonParse children rest with
      | .error e => .error e
      | .ok vs => .ok (v :: vs)
termination_by (sizeOf children, 2 + sizeOf rows)

end

/-! ### The display formatter (`formatValue`) -/

mutual

/-- Source `formatValue(value)`: BigInts become decimal strings, arrays
map recursively, and objects keep (recursively formatted) entries whose
keys coerce to `NaN`; if no key survives, the original object is
returned unchanged. -/
def formatValue : JsValue → JsValue
  | .vBigInt n => .vStr (toString n)
  | .vArr xs => .vArr (formatValueList xs)
  | .vObj fs =>
    let entries := formatEntries fs []
    if !entries.isEmpty then .vObj entries else .vObj fs
  | v => v
termination_by v => sizeOf v

/-- `value.map(formatValue)`. -/
def formatValueList : List JsValue → List JsValue
  | [] => []
  | x :: xs => formatValue x :: formatValueList xs
termination_by l => sizeOf l

/-- The `Object.keys(value).forEach(key => { if (Number.isNaN(Number(key)))
entries[key] = formatValue(value[key]) })` loop. -/
def formatEntries : List (String × JsValue) → List (String × JsValue) →
    List (String × JsValue)
  | [], acc => acc
  | (k, v) :: fs, acc =>
    if (stringToNumber k).isNone then formatEntries fs (upsert acc k (formatValue v))
    else formatEntries fs acc
termination_by fs _ => sizeOf fs

end

/-- Source `stringifyResult(result)`: format, then pretty-print unless
the formatted value is itself a string.  `JSON.stringify(x, null, 2)` is
abstracted by the compact serialiser (the claims do not measure
whitespace). -/
def stringifyResult (result : JsValue) : String :=
  let formatted := formatValue result
  match formatted with
  | .vStr s => s
  | v =>
    match jsonStringify v with
    | .ok (some s) => s
    | _ => "undefined"

/-! ### The template store -/

/-- The `DEFAULTS` panel constants. -/
def DEFAULTS_rpcList : String := "https://api.explorer.wardenprotocol.org/api/eth-rpc"

/-- `DEFAULTS.chainId`. -/
def DEFAULTS_chainId : String := "8765"

/-- `DEFAULTS.explorerBase`. -/
def DEFAULTS_explorerBase : String := "https://explorer.wardenprotocol.org/"

/-- `DEFAULTS.explorerApi`. -/
def DEFAULTS_explorerApi : String := "https://api.explorer.wardenprotocol.org/api"

/-- `DEFAULTS.explorerApiKey`. -/
def DEFAULTS_explorerApiKey : String := ""

/-- `DEFAULTS.contractAddress`. -/
def DEFAULTS_contractAddress : String := "0xAB5159B5655CdAA5178C283853841aBB0D02Eef9"

/-- `DEFAULTS.abi`. -/
def DEFAULTS_abi : String := ""

/-- The panel configuration bundle persisted inside a template. -/
structure Panel where
  rpcListText : String
  selectedRpc : String
  explorerBase : String
  explorerApi : String
  explorerApiKey : String
  chainId : String
  contractAddress : String
  abiText : String
deriving Repr, DecidableEq

/-- A sanitised per-method draft (`sanitizeMethodState`'s output shape):
`params`/`legacyExponents` are optional legacy fields, present exactly
when the raw state carried them as arrays. -/
structure MethodState where
  values : List (String × String)
  exponents : List (String × ℚ)
  tupleArrays : List (String × List TupleArrayRow)
  payableValue : String
  params : Option (List String)
  legacyExponents : Option (List ℚ)
deriving Repr, DecidableEq

/-- A stored template. -/
structure Template where
  id : String
  name : String
  panel : Panel
  methodStates : List (String × MethodState)
  createdAt : String
  updatedAt : String
deriving Repr, DecidableEq

/-- `String(panel?.[k] ?? d)`. -/
def panelField (panel : JsValue) (k : String) (d : String) : String :=
  jsToString (nullishD (propGet panel k) (.vStr d))

/-- Source `normalizePanelValues(panel)`. -/
def normalizePanelValues (panel : JsValue) : Panel :=
  { rpcListText := panelField panel "rpcListText" DEFAULTS_rpcList
    selectedRpc := panelField panel "selectedRpc" DEFAULTS_rpcList
    explorerBase := panelField panel "explorerBase" DEFAULTS_explorerBase
    explorerApi := panelField panel "explorerApi" DEFAULTS_explorerApi
    explorerApiKey := panelField panel "explorerApiKey" DEFAULTS_explorerApiKey
    chainId := panelField panel "chainId" DEFAULTS_chainId
    contractAddress := panelField panel "contractAddress" DEFAULTS_contractAddress
    abiText := panelField panel "abiText" DEFAULTS_abi }

/-- `Number(v || 0)` with `NaN` collapsed to 0 (the exponent coercion
used throughout the sanitisers). -/
def expCoerce (v : JsValue) : ℚ :=
  match jsToNumber (orD v (.vNum 0)) with
  | some q => q
  | none => 0

/-- `acc[key] = String(value ?? "")` over entries. -/
def strMapFold : List (String × JsValue) → List (String × String) →
    List (String × String)
  | [], acc => acc
  | (k, v) :: rest, acc =>
    strMapFold rest (upsert acc k (jsToString (nullishD v (.vStr ""))))

/-- `acc[key] = Number(value || 0) (NaN → 0)` over entries. -/
def expFold : List (String × JsValue) → List (String × ℚ) → List (String × ℚ)
  | [], acc => acc
  | (k, v) :: rest, acc => expFold rest (upsert acc k (expCoerce v))

/-- The values loop of `sanitizeTupleArrayRow` (keys `"values"` and
`"exponents"` are skipped). -/
def rowValuesFold : List (String × JsValue) → List (String × String) →
    List (String × String)
  | [], acc => acc
  | (k, v) :: rest, acc =>
    if k == "values" || k == "exponents" then rowValuesFold rest acc
    else rowValuesFold rest (upsert acc k (jsToString (nullishD v (.vStr ""))))

/-- Source `sanitizeTupleArrayRow(rawRow)`. -/
def sanitizeTupleArrayRow (rawRow : JsValue) : TupleArrayRow :=
  let safeRow := if jsTruthy rawRow && isPlainObj rawRow then rawRow else .vObj []
  let rawValues :=
    if jsTruthy (propGet safeRow "values") && isPlainObj (propGet safeRow "values")
    then propGet safeRow "values" else safeRow
  let values := rowValuesFold (jsEntries rawValues) []
  let exponents :=
    if jsTruthy (propGet safeRow "exponents") && isObjectType (propGet safeRow "exponents")
    then expFold (jsEntries (propGet safeRow "exponents")) [] else []
  { values := values, exponents := exponents }

/-- The elements of an array value (`[]` on anything else). -/
def arrElems : JsValue → List JsValue
  | .vArr xs => xs
  | _ => []

/-- The entries loop of `sanitizeTupleArrayMap` (non-array row lists are
skipped). -/
def tupleArrayMapFold : List (String × JsValue) →
    List (String × List TupleArrayRow) → List (String × List TupleArrayRow)
  | [], acc => acc
  | (k, rows) :: rest, acc =>
    if isArrayVal rows then
      tupleArrayMapFold rest (upsert acc k ((arrElems rows).map sanitizeTupleArrayRow))
    else tupleArrayMapFold rest acc

/-- Source `sanitizeTupleArrayMap(rawTupleArrays)`. -/
def sanitizeTupleArrayMap (raw : JsValue) : List (String × List TupleArrayRow) :=
  if !(jsTruthy raw) || !(isObjectType raw) || isArrayVal raw then []
  else tupleArrayMapFold (jsEntries raw) []

/-- Source `sanitizeMethodState(raw)`. -/
def sanitizeMethodState (raw : JsValue) : MethodState :=
  let safeRaw := if jsTruthy raw && isObjectType raw then raw else .vObj []
  let values :=
    if jsTruthy (propGet safeRaw "values") && isPlainObj (propGet safeRaw "values")
    then strMapFold (jsEntries (propGet safeRaw "values")) [] else []
  let exponents :=
    if jsTruthy (propGet safeRaw "exponents") && isPlainObj (propGet safeRaw "exponents")
    then expFold (jsEntries (propGet safeRaw "exponents")) [] else []
  let tupleArrays := sanitizeTupleArrayMap (propGet safeRaw "tupleArrays")
  let payableValue := jsToString (nullishD (propGet safeRaw "payableValue") (.vStr ""))
  let params :=
    match propGet safeRaw "params" with
    | .vArr xs => some (xs.map toInputString)
    | _ => none
  let legacyExponents :=
    match propGet safeRaw "legacyExponents" with
    | .vArr xs => some (xs.map expCoerce)
    | _ =>
      match propGet safeRaw "exponents" with
      | .vArr xs => some (xs.map expCoerce)
      | _ => none
  { values := values, exponents := exponents, tupleArrays := tupleArrays,
    payableValue := payableValue, params := params,
    legacyExponents := legacyExponents }

/-- The entries loop of `sanitizeMethodStates`. -/
def methodStatesFold : List (String × JsValue) → List (String × MethodState) →
    List (String × MethodState)
  | [], acc => acc
  | (k, v) :: rest, acc => methodStatesFold rest (upsert acc k (sanitizeMethodState v))

/-- Source `sanitizeMethodStates(raw)`. -/
def sanitizeMethodStates (raw : JsValue) : List (String × MethodState) :=
  if jsTruthy raw && isObjectType raw then methodStatesFold (jsEntries raw) [] else []

/-- Source `generateTemplateId()`: `Date.now()` and the sliced random hex
are passed in (the result always starts with `"tpl_"`). -/
def generateTemplateId (nowMs : Nat) (randHex : String) : String :=
  "tpl_" ++ toString nowMs ++ "_" ++ randHex

/-- Source `extractTemplateList(raw)`. -/
def extractTemplateList : JsValue → List JsValue
  | .vArr xs => xs
  | .vObj fs =>
    (match objGet fs "templates" with
     | .vArr ts => ts
     | _ => [.vObj fs])
  | _ => []

/-- Source `sanitizeTemplate(raw)`; the lazily generated id and the
current ISO time are passed in as `genId` and `now`. -/
def sanitizeTemplate (genId : String) (now : String) (raw : JsValue) :
    Option Template :=
  if !(jsTruthy raw && isObjectType raw) then none
  else
    let name := jsTrim (jsToString (orD (propGet raw "name") (.vStr "")))
    if name.isEmpty then none
    else
      some
        { id := jsToString (orD (propGet raw "id") (.vStr genId))
          name := name
          panel := normalizePanelValues (orD (propGet raw "panel") (.vObj []))
          methodStates := sanitizeMethodStates (propGet raw "methodStates")
          createdAt := jsToString (orD (propGet raw "createdAt") (.vStr now))
          updatedAt := jsToString (orD (propGet raw "updatedAt") (.vStr now)) }

/-- Source `loadTemplatesFromStorage()`: `localStorage.getItem` is the
`stored` parameter (`none` = key absent), `JSON.parse` is `jsonParse`
(`none` = throw, caught by the source), and the per-element id/time
generation inside `sanitizeTemplate` is indexed by list position. -/
def loadTemplatesFromStorage (jsonParse : String → Option JsValue)
    (genIds nows : Nat → String) (stored : Option String) : List Template :=
  match stored with
  | none => []
  | some raw =>
    if raw.isEmpty then []
    else
      match jsonParse raw with
      | none => []
      | some parsed =>
        ((extractTemplateList parsed).enum.map
          (fun p => sanitizeTemplate (genIds p.1) (nows p.1) p.2)).filterMap id

/-- The `while (usedIds.has(nextId)) nextId = generateTemplateId()` loop
of the import handler, with the successive generated ids supplied by
`supply` from index `k` on.  Returns the chosen id and the next unused
supply index; `none` when `fuel` generations were exhausted (the JS loop
is unbounded — the theorems show fuel 2 suffices for a fresh supply). -/
def pickFreshId (used : List String) (cand : String) (supply : Nat → String)
    (k : Nat) : Nat → Option (String × Nat)
  | 0 => none
  | fuel + 1 =>
    if used.contains cand then pickFreshId used (supply k) supply (k + 1) fuel
    else some (cand, k)

/-- The import fold: for each sanitised imported template, resolve its id
against the used set, append `{ ...template, id, updatedAt: now }`, and
record the id as used. -/
def importTemplatesGo (supply : Nat → String) (now : String) (fuel : Nat) :
    List Template → List String → List Template → Nat → Option (List Template)
  | [], _, acc, _ => some acc
  | t :: rest, used, acc, k =>
    match pickFreshId used t.id supply k fuel with
    | none => none
    | some (nid, k2) =>
      importTemplatesGo supply now fuel rest (nid :: used)
        (acc ++ [{ t with id := nid, updatedAt := now }]) k2

/-- The `persistTemplates` callback of source `handleImportTemplates`:
seed the used-id set with the previous templates' ids and fold the
(already sanitised) imported templates onto the previous list. -/
def importTemplates (prev imported : List Template) (supply : Nat → String)
    (now : String) (fuel : Nat) : Option (List Template) :=
  importTemplatesGo supply now fuel imported (prev.map Template.id) prev 0

/-! ### JSON re-encoding of a sanitised template

`handleExportTemplates` writes `JSON.stringify` of the stored template
objects; re-importing parses that text back.  On the well-typed values a
sanitised template contains, `JSON.parse ∘ JSON.stringify` is the
identity, so the export/import round trip of claim C8 is
`sanitizeTemplate` applied to this direct `JsValue` encoding. -/

/-- A tuple-array row as the exported JSON represents it. -/
def rowToJs (r : TupleArrayRow) : JsValue :=
  .vObj [("values", .vObj (r.values.map fun p => (p.1, .vStr p.2))),
         ("exponents", .vObj (r.exponents.map fun p => (p.1, .vNum p.2)))]

/-- A method state as the exported JSON represents it (optional legacy
fields appear exactly when present, in the source's insertion order). -/
def methodStateToJs (m : MethodState) : JsValue :=
  .vObj ([("values", .vObj (m.values.map fun p => (p.1, .vStr p.2))),
          ("exponents", .vObj (m.exponents.map fun p => (p.1, .vNum p.2))),
          ("tupleArrays", .vObj (m.tupleArrays.map fun p =>
            (p.1, .vArr (p.2.map rowToJs)))),
          ("payableValue", .vStr m.payableValue)]
    ++ (match m.params with
        | some l => [("params", .vArr (l.map JsValue.vStr))]
        | none => [])
    ++ (match m.legacyExponents with
        | some l => [("legacyExponents", .vArr (l.map JsValue.vNum))]
        | none => []))

/-- A panel as the exported JSON represents it. -/
def panelToJs (p : Panel) : JsValue :=
  .vObj [("rpcListText", .vStr p.rpcListText),
         ("selectedRpc", .vStr p.selectedRpc),
         ("explorerBase", .vStr p.explorerBase),
         ("explorerApi", .vStr p.explorerApi),
         ("explorerApiKey", .vStr p.explorerApiKey),
         ("chainId", .vStr p.chainId),
         ("contractAddress", .vStr p.contractAddress),
         ("abiText", .vStr p.abiText)]

/-- A template as the exported JSON represents it. -/
def templateToJs (t : Template) : JsValue :=
  .vObj [("id", .vStr t.id), ("name", .vStr t.name),
         ("panel", panelToJs t.panel),
         ("methodStates", .vObj (t.methodStates.map fun p =>
           (p.1, methodStateToJs p.2))),
         ("createdAt", .vStr t.createdAt), ("updatedAt", .vStr t.updatedAt)]

/-! ### Derived predicates used by the statements -/

/-- Do the nodes of this list carry exactly the paths `base ++ [i]`,
`base ++ [i+1]`, …? -/
def childrenPathsFrom (base : List Nat) (i : Nat) : List ParamNode → Bool
  | [] => true
  | c :: rest => (c.pathF == base ++ [i]) && childrenPathsFrom base (i + 1) rest

mutual

/-- Every tuple node's children extend the tuple's own path by one index,
and every tuple-array node's children restart from the row root (paths
`[0], [1], …`), recursively. -/
def pathsOkNode : ParamNode → Bool
  | .leaf _ _ _ _ _ => true
  | .tuple _ _ _ p cs => childrenPathsFrom p 0 cs && pathsOkList cs
  | .tupleArray _ _ _ _ cs => childrenPathsFrom [] 0 cs && pathsOkList cs
termination_by n => sizeOf n

/-- `pathsOkNode` over a list. -/
def pathsOkList : List ParamNode → Bool
  | [] => true
  | c :: rest => pathsOkNode c && pathsOkList rest
termination_by l => sizeOf l

end

mutual

/-- No BigInt occurs anywhere in the value. -/
def bigintFree : JsValue → Bool
  | .vBigInt _ => false
  | .vArr xs => bigintFreeList xs
  | .vObj fs => bigintFreeFields fs
  | _ => true
termination_by v => sizeOf v

/-- `bigintFree` over array elements. -/
def bigintFreeList : List JsValue → Bool
  | [] => true
  | x :: xs => bigintFree x && bigintFreeList xs
termination_by l => sizeOf l

/-- `bigintFree` over object field values. -/
def bigintFreeFields : List (String × JsValue) → Bool
  | [] => true
  | (_, v) :: fs => bigintFree v && bigintFreeFields fs
termination_by l => sizeOf l

end

mutual

/-- Every object reachable in the value (through array elements and
through the non-numeric-keyed object fields the formatter keeps) is
either empty or retains at least one key that coerces to `NaN`.  Decoded
contract results satisfy this: their structs are keyed by field names. -/
def goodDecoded : JsValue → Bool
  | .vArr xs => goodDecodedList xs
  | .vObj fs =>
    (fs.isEmpty || fs.any fun p => (stringToNumber p.1).isNone) && goodDecodedKept fs
  | _ => true
termination_by v => sizeOf v

/-- `goodDecoded` over array elements. -/
def goodDecodedList : List JsValue → Bool
  | [] => true
  | x :: xs => goodDecoded x && goodDecodedList xs
termination_by l => sizeOf l

/-- `goodDecoded` over the object fields the formatter keeps. -/
def goodDecodedKept : List (String × JsValue) → Bool
  | [] => true
  | (k, v) :: fs =>
    (if (stringToNumber k).isNone then goodDecoded v else true) && goodDecodedKept fs
termination_by l => sizeOf l

end

/-- Is the value an array? (Used to state that an "array-like" object
does not become an array.) -/
def isArrResult : JsValue → Bool
  | .vArr _ => true
  | _ => false

/-- The keys of an association list. -/
def keysOf {α : Type} (m : List (String × α)) : List String := m.map Prod.fst

/-- Well-formedness of a sanitised tuple-array row: distinct value keys
avoiding the reserved `"values"`/`"exponents"` names, distinct exponent
keys.  Every `sanitizeTupleArrayRow` output satisfies this. -/
def RowWF (r : TupleArrayRow) : Prop :=
  (keysOf r.values).Nodup ∧
  (∀ k ∈ keysOf r.values, k ≠ "values" ∧ k ≠ "exponents") ∧
  (keysOf r.exponents).Nodup

/-- Well-formedness of a sanitised method state. -/
def MethodStateWF (m : MethodState) : Prop :=
  (keysOf m.values).Nodup ∧ (keysOf m.exponents).Nodup ∧
  (keysOf m.tupleArrays).Nodup ∧
  ∀ rows ∈ m.tupleArrays.map Prod.snd, ∀ r ∈ rows, RowWF r

/-- Well-formedness of a sanitised template: trimmed non-empty name and
well-formed method states with distinct keys. -/
def TemplateWF (t : Template) : Prop :=
  ¬t.name.isEmpty ∧ jsTrim t.name = t.name ∧
  (keysOf t.methodStates).Nodup ∧
  ∀ ms ∈ t.methodStates.map Prod.snd, MethodStateWF ms

/-! ## Supporting lemmas -/

theorem dropWhile_eq_self_of_head {p : Char → Bool} {l : List Char}
    (h : ∀ c, l.head? = some c → p c = false) : l.dropWhile p = l := by
  cases l with
  | nil => rfl
  | cons x xs =>
    have hx := h x rfl
    simp [List.dropWhile_cons, hx]

theorem head_dropWhile_false (p : Char → Bool) (l : List Char) :
    ∀ c, (l.dropWhile p).head? = some c → p c = false := by
  induction l with
  | nil => intro c h; simp at h
  | cons x xs ih =>
    intro c h
    by_cases hx : p x
    · rw [List.dropWhile_cons, if_pos hx] at h
      exact ih c h
    · rw [List.dropWhile_cons, if_neg hx] at h
      simp at h
      subst h
      simpa using hx

theorem getLast?_dropWhile {p : Char → Bool} {l : List Char} {c : Char}
    (hl : l.getLast? = some c) (hc : p c = false) :
    (l.dropWhile p).getLast? = some c := by
  induction l with
  | nil => simp at hl
  | cons x xs ih =>
    by_cases hx : p x
    · rw [List.dropWhile_cons, if_pos hx]
      cases xs with
      | nil =>
        simp at hl
        subst hl
        rw [hx] at hc
        cases hc
      | cons y ys =>
        rw [List.getLast?_cons_cons] at hl
        exact ih hl
    · rw [List.dropWhile_cons, if_neg hx]
      exact hl

theorem jsTrimList_idem (l : List Char) :
    jsTrimList (jsTrimList l) = jsTrimList l := by
  unfold jsTrimList
  generalize ha : l.dropWhile isJsWhitespace = a
  have hahead : ∀ c, a.head? = some c → isJsWhitespace c = false := by
    intro c hc
    exact head_dropWhile_false _ l c (ha ▸ hc)
  cases a with
  | nil => simp
  | cons x xs =>
    have hxp : isJsWhitespace x = false := hahead x rfl
    generalize hb : (x :: xs).reverse.dropWhile isJsWhitespace = b
    have hbl : b.getLast? = some x := by
      rw [← hb]
      apply getLast?_dropWhile _ hxp
      rw [List.getLast?_reverse]
      rfl
    have hbhead : ∀ c, b.head? = some c → isJsWhitespace c = false := by
      intro c hc
      exact head_dropWhile_false _ _ c (hb ▸ hc)
    have h2 : b.reverse.dropWhile isJsWhitespace = b.reverse := by
      apply dropWhile_eq_self_of_head
      intro c hc
      rw [List.head?_reverse, hbl] at hc
      cases hc
      exact hxp
    have h1 : b.dropWhile isJsWhitespace = b := dropWhile_eq_self_of_head hbhead
    rw [h2, List.reverse_reverse, h1]

theorem jsTrim_idem (s : String) : jsTrim (jsTrim s) = jsTrim s := by
  show String.mk (jsTrimList (jsTrimList s.data)) = String.mk (jsTrimList s.data)
  rw [jsTrimList_idem]

theorem jsTrimList_eq_self {l : List Char}
    (h : ∀ c ∈ l, isJsWhitespace c = false) : jsTrimList l = l := by
  unfold jsTrimList
  have h1 : l.dropWhile isJsWhitespace = l := by
    apply dropWhile_eq_self_of_head
    intro c hc
    cases l with
    | nil => simp at hc
    | cons x xs =>
      simp at hc
      subst hc
      exact h _ (by simp)
  rw [h1]
  have h2 : l.reverse.dropWhile isJsWhitespace = l.reverse := by
    apply dropWhile_eq_self_of_head
    intro c hc
    apply h
    have hm : c ∈ l.reverse := by
      cases hr : l.reverse with
      | nil => rw [hr] at hc; simp at hc
      | cons y ys =>
        rw [hr] at hc
        simp at hc
        subst hc
        simp
    simpa using hm
  rw [h2, List.reverse_reverse]

theorem digitsVal_foldl (cs : List Char) :
    ∀ n, cs.foldl (fun a c => a * 10 + (c.toNat - 48)) n =
      n * 10 ^ cs.length + digitsVal cs := by
  unfold digitsVal
  induction cs with
  | nil => intro n; simp
  | cons c rest ih =>
    intro n
    rw [List.foldl_cons, ih, List.foldl_cons, ih (0 * 10 + (c.toNat - 48)),
      List.length_cons]
    ring

theorem digitsVal_append (a b : List Char) :
    digitsVal (a ++ b) = digitsVal a * 10 ^ b.length + digitsVal b := by
  unfold digitsVal
  rw [List.foldl_append]
  exact digitsVal_foldl b _

theorem digitsVal_replicate_zero (k : Nat) :
    digitsVal (List.replicate k '0') = 0 := by
  induction k with
  | zero => rfl
  | succ n ih =>
    rw [List.replicate_succ]
    unfold digitsVal at ih ⊢
    rw [List.foldl_cons]
    simpa using ih

theorem digit_not_ws {c : Char} (h : c.isDigit = true) :
    isJsWhitespace c = false := by
  cases hw : isJsWhitespace c
  · rfl
  · exfalso
    unfold isJsWhitespace at hw
    simp only [Bool.or_eq_true, decide_eq_true_eq] at hw
    casesm* _ ∨ _
    all_goals subst_vars
    all_goals exact absurd h (by decide)

theorem digit_ne_dot {c : Char} (h : c.isDigit = true) : c ≠ '.' := by
  intro hc
  subst hc
  exact absurd h (by decide)

theorem dot_not_ws : isJsWhitespace '.' = false := by decide

theorem splitOnCharAux_not_mem {c : Char} {l : List Char} (h : c ∉ l) :
    ∀ acc, splitOnCharAux c l acc = [acc.reverse ++ l] := by
  induction l with
  | nil => intro acc; simp [splitOnCharAux]
  | cons x xs ih =>
    intro acc
    have hx : ¬(x = c) := fun he => h (he ▸ List.mem_cons_self x xs)
    rw [splitOnCharAux, if_neg hx, ih (fun hm => h (List.mem_cons_of_mem x hm))]
    simp

theorem splitOnChar_not_mem {c : Char} {l : List Char} (h : c ∉ l) :
    splitOnChar c l = [l] := by
  unfold splitOnChar
  rw [splitOnCharAux_not_mem h]
  simp

theorem splitOnCharAux_sep {c : Char} {w f : List Char} (hw : c ∉ w) :
    ∀ acc, splitOnCharAux c (w ++ c :: f) acc =
      (acc.reverse ++ w) :: splitOnChar c f := by
  induction w with
  | nil => intro acc; simp [splitOnCharAux, splitOnChar]
  | cons x xs ih =>
    intro acc
    have hx : ¬(x = c) := fun he => hw (he ▸ List.mem_cons_self x xs)
    rw [List.cons_append, splitOnCharAux, if_neg hx,
      ih (fun hm => hw (List.mem_cons_of_mem x hm))]
    simp

theorem splitOnChar_sep {c : Char} {w f : List Char} (hw : c ∉ w) (hf : c ∉ f) :
    splitOnChar c (w ++ c :: f) = [w, f] := by
  unfold splitOnChar
  rw [splitOnCharAux_sep hw, splitOnChar_not_mem hf]
  simp

theorem toLengthNat_natCast (e : Nat) : toLengthNat (e : ℚ) = e := by
  unfold toLengthNat
  by_cases he : (e : ℚ) ≤ 0
  · have : e = 0 := by exact_mod_cast le_antisymm he (by positivity)
    simp [he, this]
  · rw [if_neg he]
    have : ((e : ℚ)).floor = (e : Int) := by
      rw [Rat.floor_def']
      simp
    rw [this]
    simp

/-! ### Behaviour of `parseDecimalWithExponent` -/

theorem parseDecimal_empty {s : String} (h : jsTrimList s.data = []) (e : ℚ) :
    parseDecimalWithExponent s e = .ok 0 := by
  unfold parseDecimalWithExponent
  simp [h]

theorem parseDecimal_whole (w : List Char) (e : Nat) (hne : w ≠ [])
    (hd : ∀ c ∈ w, c.isDigit = true) :
    parseDecimalWithExponent (String.mk w) (e : ℚ) =
      .ok (digitsVal w * 10 ^ e) := by
  have htrim : jsTrimList w = w :=
    jsTrimList_eq_self (fun c hc => digit_not_ws (hd c hc))
  have hdot : '.' ∉ w := fun hm => digit_ne_dot (hd '.' hm) rfl
  have hsplit : splitOnChar '.' w = [w] := splitOnChar_not_mem hdot
  have hall : w.all Char.isDigit = true := List.all_eq_true.mpr hd
  have hvalid : isDecimalChars w = true := by
    unfold isDecimalChars
    rw [hsplit]
    simp [hne, hall]
  unfold parseDecimalWithExponent
  show (if (jsTrimList w).isEmpty = true then _ else _) = _
  rw [htrim]
  rw [if_neg (by simp [hne]), hvalid]
  simp only [Bool.not_true, Bool.false_eq_true, if_false, hsplit]
  rw [if_neg (by
    simp only [List.drop_one, List.headD, List.tail, List.length_nil, Nat.cast_zero]
    exact not_lt.mpr (Nat.cast_nonneg e))]
  simp only [List.headD, List.drop_one, List.tail]
  rw [toLengthNat_natCast]
  unfold padEndZeros
  simp only [List.length_nil, Nat.sub_zero, List.nil_append]
  rw [digitsVal_append, digitsVal_replicate_zero, List.length_replicate]
  simp

theorem parseDecimal_frac (w f : List Char) (e : Nat) (hwne : w ≠ [])
    (hfne : f ≠ []) (hwd : ∀ c ∈ w, c.isDigit = true)
    (hfd : ∀ c ∈ f, c.isDigit = true) (hlen : f.length ≤ e) :
    parseDecimalWithExponent (String.mk (w ++ '.' :: f)) (e : ℚ) =
      .ok (digitsVal w * 10 ^ e + digitsVal f * 10 ^ (e - f.length)) := by
  have hnows : ∀ c ∈ w ++ '.' :: f, isJsWhitespace c = false := by
    intro c hc
    rcases List.mem_append.mp hc with h | h
    · exact digit_not_ws (hwd c h)
    · rcases List.mem_cons.mp h with rfl | h
      · exact dot_not_ws
      · exact digit_not_ws (hfd c h)
  have htrim : jsTrimList (w ++ '.' :: f) = w ++ '.' :: f :=
    jsTrimList_eq_self hnows
  have hdw : '.' ∉ w := fun hm => digit_ne_dot (hwd '.' hm) rfl
  have hdf : '.' ∉ f := fun hm => digit_ne_dot (hfd '.' hm) rfl
  have hsplit : splitOnChar '.' (w ++ '.' :: f) = [w, f] :=
    splitOnChar_sep hdw hdf
  have hvalid : isDecimalChars (w ++ '.' :: f) = true := by
    unfold isDecimalChars
    rw [hsplit]
    simp [hwne, hfne, List.all_eq_true.mpr hwd, List.all_eq_true.mpr hfd]
  unfold parseDecimalWithExponent
  show (if (jsTrimList (w ++ '.' :: f)).isEmpty = true then _ else _) = _
  rw [htrim]
  rw [if_neg (by simp [hwne]), hvalid]
  simp only [Bool.not_true, Bool.false_eq_true, if_false, hsplit]
  rw [if_neg (by
    simp only [List.drop_one, List.headD, List.tail]
    exact_mod_cast not_lt.mpr (by exact_mod_cast hlen))]
  simp only [List.headD, List.drop_one, List.tail]
  rw [toLengthNat_natCast]
  unfold padEndZeros
  rw [digitsVal_append, digitsVal_append, digitsVal_replicate_zero,
    List.length_append, List.length_replicate]
  have : f.length + (e - f.length) = e := Nat.add_sub_cancel' hlen
  rw [this]
  norm_cast

theorem parseDecimal_invalid {s : String} (e : ℚ)
    (hne : jsTrimList s.data ≠ [])
    (hbad : isDecimalChars (jsTrimList s.data) = false) :
    parseDecimalWithExponent s e = .error "输入格式不正确，请输入数字。" := by
  unfold parseDecimalWithExponent
  rw [if_neg (by simp [hne]), hbad]
  simp

theorem parseDecimal_overflow (w f : List Char) (e : ℚ) (hwne : w ≠ [])
    (hfne : f ≠ []) (hwd : ∀ c ∈ w, c.isDigit = true)
    (hfd : ∀ c ∈ f, c.isDigit = true) (hlen : (f.length : ℚ) > e) :
    parseDecimalWithExponent (String.mk (w ++ '.' :: f)) e =
      .error ("小数位过多，最多支持 " ++ qToJsString e ++ " 位。") := by
  have hnows : ∀ c ∈ w ++ '.' :: f, isJsWhitespace c = false := by
    intro c hc
    rcases List.mem_append.mp hc with h | h
    · exact digit_not_ws (hwd c h)
    · rcases List.mem_cons.mp h with rfl | h
      · exact dot_not_ws
      · exact digit_not_ws (hfd c h)
  have htrim : jsTrimList (w ++ '.' :: f) = w ++ '.' :: f :=
    jsTrimList_eq_self hnows
  have hdw : '.' ∉ w := fun hm => digit_ne_dot (hwd '.' hm) rfl
  have hdf : '.' ∉ f := fun hm => digit_ne_dot (hfd '.' hm) rfl
  have hsplit : splitOnChar '.' (w ++ '.' :: f) = [w, f] :=
    splitOnChar_sep hdw hdf
  have hvalid : isDecimalChars (w ++ '.' :: f) = true := by
    unfold isDecimalChars
    rw [hsplit]
    simp [hwne, hfne, List.all_eq_true.mpr hwd, List.all_eq_true.mpr hfd]
  unfold parseDecimalWithExponent
  show (if (jsTrimList (w ++ '.' :: f)).isEmpty = true then _ else _) = _
  rw [htrim]
  rw [if_neg (by simp [hwne]), hvalid]
  simp only [Bool.not_true, Bool.false_eq_true, if_false, hsplit]
  rw [if_pos (by simp only [List.drop_one, List.headD, List.tail]; exact hlen)]

/-! ## Claim C1 -/

/-- Claim C1, counterexample to the claim as stated: the empty input is
not of the form `digits (dot digits)?`, yet `parseDecimalWithExponent`
returns `0n` instead of throwing. -/
theorem claim_C1_counterexample :
    parseDecimalWithExponent "" 18 = .ok 0 ∧
    isDecimalChars (jsTrimList "".data) = false := by
  constructor
  · decide
  · decide

/-- Claim C1 (amended): for a scalable leaf with selected exponent
`e > 0` the codec parses the (trimmed) text as a decimal with at most
`e` fractional digits, right-pads the fraction with zeros and
concatenates (conjuncts 1–3, with the `"1.5"`/18 example); non-empty
trimmed input not of that form, or with too many fractional digits,
throws (conjuncts 4–5); empty or whitespace-only input yields `0`
instead of throwing (the amendment, covered by claim C10); and with
selected exponent `0` a leaf value containing `'.'` throws (conjunct
6). -/
theorem claim_C1 :
    (∀ (w : List Char) (e : Nat), w ≠ [] → (∀ c ∈ w, c.isDigit = true) →
      parseDecimalWithExponent (String.mk w) (e : ℚ) =
        .ok (digitsVal w * 10 ^ e)) ∧
    (∀ (w f : List Char) (e : Nat), w ≠ [] → f ≠ [] →
      (∀ c ∈ w, c.isDigit = true) → (∀ c ∈ f, c.isDigit = true) →
      f.length ≤ e →
      parseDecimalWithExponent (String.mk (w ++ '.' :: f)) (e : ℚ) =
        .ok (digitsVal w * 10 ^ e + digitsVal f * 10 ^ (e - f.length))) ∧
    parseDecimalWithExponent "1.5" 18 = .ok 1500000000000000000 ∧
    (∀ (s : String) (e : ℚ), jsTrimList s.data ≠ [] →
      isDecimalChars (jsTrimList s.data) = false →
      parseDecimalWithExponent s e = .error "输入格式不正确，请输入数字。") ∧
    (∀ (w f : List Char) (e : ℚ), w ≠ [] → f ≠ [] →
      (∀ c ∈ w, c.isDigit = true) → (∀ c ∈ f, c.isDigit = true) →
      (f.length : ℚ) > e →
      parseDecimalWithExponent (String.mk (w ++ '.' :: f)) e =
        .error ("小数位过多，最多支持 " ++ qToJsString e ++ " 位。")) ∧
    (∀ (jp : String → Except String JsValue) (k n t : String)
      (p : List Nat) (comps : Option (List AbiParam))
      (values : List (String × String)) (exps : List (String × ℚ))
      (tups : List (String × List TupleArrayRow)),
      SCALE_TYPES.contains t = true → lookupQ exps k = 0 →
      strContainsChar (lookupStr values k) '.' = true →
      buildNodeCallValue jp (.leaf k n t p comps) values exps tups =
        .error "uint 类型不支持小数，请选择 10^n 或改用整数。") := by
  refine ⟨parseDecimal_whole, parseDecimal_frac, by decide,
    fun s e => parseDecimal_invalid e, parseDecimal_overflow, ?_⟩
  intro jp k n t p comps values exps tups hscale hexp hdot
  simp only [buildNodeCallValue, hscale, if_true]
  rw [hexp]
  rw [if_neg (by norm_num), if_pos hdot]

/-- Claim C1 witness: the amended theorem applied at concrete inputs
(`"12.34"` with exponent 6, a malformed input, an overflowing fraction,
and a dotted value on a scalable leaf with exponent 0). -/
theorem claim_C1_witness :
    parseDecimalWithExponent "12.34" 6 = .ok 12340000 ∧
    parseDecimalWithExponent "12,34" 6 = .error "输入格式不正确，请输入数字。" ∧
    buildNodeCallValue (fun _ => .ok (.vStr "")) (.leaf "0" "arg0" "uint256" [0] none)
      [("0", "1.5")] [] [] = .error "uint 类型不支持小数，请选择 10^n 或改用整数。" := by
  refine ⟨?_, ?_, ?_⟩
  · have h := claim_C1.2.1 ['1', '2'] ['3', '4'] 6 (by decide) (by decide)
      (by decide) (by decide) (by decide)
    rw [show (6 : ℚ) = ((6 : Nat) : ℚ) by norm_num]
    exact h.trans (by decide)
  · have h := claim_C1.2.2.2.1 "12,34" 6 (by decide) (by decide)
    exact h
  · exact claim_C1.2.2.2.2.2 _ "0" "arg0" "uint256" [0] none _ _ []
      (by decide) (by decide) (by decide)

/-! ## Claim C10 -/

/-- Claim C10 (confirmed): for every exponent, empty or whitespace-only
input parses to integer `0`; hence an untouched scalable leaf (empty
stored text) with a positive selected exponent contributes
`BigInt 0` to the call arguments. -/
theorem claim_C10 :
    (∀ (s : String) (e : ℚ), jsTrimList s.data = [] →
      parseDecimalWithExponent s e = .ok 0) ∧
    (∀ (jp : String → Except String JsValue) (k n t : String)
      (p : List Nat) (comps : Option (List AbiParam))
      (values : List (String × String)) (exps : List (String × ℚ))
      (tups : List (String × List TupleArrayRow)),
      SCALE_TYPES.contains t = true → lookupStr values k = "" →
      lookupQ exps k > 0 →
      buildNodeCallValue jp (.leaf k n t p comps) values exps tups =
        .ok (.vBigInt 0)) := by
  constructor
  · intro s e h
    exact parseDecimal_empty h e
  · intro jp k n t p comps values exps tups hscale hval hexp
    simp only [buildNodeCallValue, hscale, if_true]
    rw [if_pos hexp, hval]
    rw [parseDecimal_empty (by decide)]
    rfl

/-- Claim C10 witness: whitespace-only input with exponent 18, and an
untouched `uint256` leaf with exponent 6. -/
theorem claim_C10_witness :
    parseDecimalWithExponent "  " 18 = .ok 0 ∧
    buildNodeCallValue (fun _ => .ok (.vStr "")) (.leaf "0" "arg0" "uint256" [0] none)
      [] [("0", 6)] [] = .ok (.vBigInt 0) := by
  constructor
  · exact claim_C10.1 "  " 18 (by decide)
  · exact claim_C10.2 _ "0" "arg0" "uint256" [0] none [] [("0", 6)] []
      (by decide) (by decide) (by norm_num [lookupQ])

/-! ## Claim C2 -/

theorem retry3_ok0 {A : Type} {f : Nat → Except String A} {a : A}
    (h : f 0 = .ok a) : retryCall f 3 400 = (.ok a, [0], []) := by
  simp [retryCall, retryAux, h]

theorem retry3_ok1 {A : Type} {f : Nat → Except String A} {e0 : String} {a : A}
    (h0 : f 0 = .error e0) (h1 : f 1 = .ok a) :
    retryCall f 3 400 = (.ok a, [0, 1], [400]) := by
  simp [retryCall, retryAux, h0, h1]

theorem retry3_ok2 {A : Type} {f : Nat → Except String A} {e0 e1 : String}
    {a : A} (h0 : f 0 = .error e0) (h1 : f 1 = .error e1) (h2 : f 2 = .ok a) :
    retryCall f 3 400 = (.ok a, [0, 1, 2], [400, 400]) := by
  simp [retryCall, retryAux, h0, h1, h2]

theorem retry3_err {A : Type} {f : Nat → Except String A} {e0 e1 e2 : String}
    (h0 : f 0 = .error e0) (h1 : f 1 = .error e1) (h2 : f 2 = .error e2) :
    retryCall f 3 400 = (.error (some e2), [0, 1, 2], [400, 400]) := by
  simp [retryCall, retryAux, h0, h1, h2]

/-- Claim C2 (confirmed): the primary RPC call is attempted at most
3 times (trace = `[0, …, m-1]` with `m ≤ 3`) with a fixed 400 ms sleep
between consecutive attempts and none after the last
(`sleeps = replicate (m-1) 400`); the first successful attempt's result
is returned with no further attempts; when all 3 attempts fail, the
proxy pipeline (encode, proxied `eth_call`, decode) result is returned
on success; and when it fails too, the single raised error's message is
the concatenation of a prefix, the RPC failure message (the last
attempt's), a separator, and the proxy failure message — so it contains
both. -/
theorem claim_C2 {A : Type} (rpc : Nat → Except String A) (encodeData : String)
    (proxyEthCall : String → Except String String)
    (decodeResult : String → Except String A) :
    ((callReadWithFallback rpc encodeData proxyEthCall decodeResult).2.1.length ≤ 3 ∧
     (callReadWithFallback rpc encodeData proxyEthCall decodeResult).2.1 =
       List.range (callReadWithFallback rpc encodeData proxyEthCall decodeResult).2.1.length ∧
     (callReadWithFallback rpc encodeData proxyEthCall decodeResult).2.2 =
       List.replicate
         ((callReadWithFallback rpc encodeData proxyEthCall decodeResult).2.1.length - 1)
         400) ∧
    (∀ k a, k < 3 → (∀ j < k, ∃ e, rpc j = .error e) → rpc k = .ok a →
      callReadWithFallback rpc encodeData proxyEthCall decodeResult =
        (.ok a, List.range (k + 1), List.replicate k 400)) ∧
    (∀ e0 e1 e2 raw d, rpc 0 = .error e0 → rpc 1 = .error e1 →
      rpc 2 = .error e2 → proxyEthCall encodeData = .ok raw →
      decodeResult raw = .ok d →
      callReadWithFallback rpc encodeData proxyEthCall decodeResult =
        (.ok d, [0, 1, 2], [400, 400])) ∧
    (∀ e0 e1 e2 pe, rpc 0 = .error e0 → rpc 1 = .error e1 →
      rpc 2 = .error e2 →
      (match proxyEthCall encodeData with
       | .ok raw => decodeResult raw
       | .error e => .error e) = .error pe →
      callReadWithFallback rpc encodeData proxyEthCall decodeResult =
        (.error ("RPC 调用失败（已重试 3 次）：" ++ e2 ++
                 "\n浏览器 API 代理调用失败：" ++ pe), [0, 1, 2], [400, 400])) := by
  refine ⟨?_, ?_, ?_, ?_⟩
  · rcases h0 : rpc 0 with e0 | a0
    · rcases h1 : rpc 1 with e1 | a1
      · rcases h2 : rpc 2 with e2 | a2
        · unfold callReadWithFallback
          rw [retry3_err h0 h1 h2]
          rcases hp : (match proxyEthCall encodeData with
            | .ok raw => decodeResult raw
            | .error e => .error e) with pe | d
          all_goals simp [hp]
          all_goals decide
        · unfold callReadWithFallback
          rw [retry3_ok2 h0 h1 h2]
          simp
          decide
      · unfold callReadWithFallback
        rw [retry3_ok1 h0 h1]
        simp
        decide
    · unfold callReadWithFallback
      rw [retry3_ok0 h0]
      simp
      decide
  · intro k a hk hprev hok
    interval_cases k
    · unfold callReadWithFallback
      rw [retry3_ok0 hok]
      simp [List.range_succ]
    · obtain ⟨e0, h0⟩ := hprev 0 (by omega)
      unfold callReadWithFallback
      rw [retry3_ok1 h0 hok]
      simp [List.range_succ]
    · obtain ⟨e0, h0⟩ := hprev 0 (by omega)
      obtain ⟨e1, h1⟩ := hprev 1 (by omega)
      unfold callReadWithFallback
      rw [retry3_ok2 h0 h1 hok]
      simp [List.range_succ]
  · intro e0 e1 e2 raw d h0 h1 h2 hraw hd
    unfold callReadWithFallback
    rw [retry3_err h0 h1 h2]
    simp [hraw, hd]
  · intro e0 e1 e2 pe h0 h1 h2 hp
    unfold callReadWithFallback
    rw [retry3_err h0 h1 h2]
    simp [hp]

/-- Claim C2 witness: a run that succeeds on the second attempt, and a
run in which both paths fail and the combined message carries both
diagnostics. -/
theorem claim_C2_witness :
    callReadWithFallback (fun i => if i = 1 then .ok 7 else .error "boom")
      "d" (fun _ => .ok "raw") (fun _ => .ok 9) = (.ok 7, [0, 1], [400]) ∧
    callReadWithFallback (fun _ => (.error "rpcboom" : Except String Nat))
      "d" (fun _ => .error "proxyboom") (fun _ => .ok 9) =
      (.error "RPC 调用失败（已重试 3 次）：rpcboom\n浏览器 API 代理调用失败：proxyboom",
        [0, 1, 2], [400, 400]) := by
  constructor
  · have h := (claim_C2 (fun i => if i = 1 then .ok 7 else .error "boom")
      "d" (fun _ => .ok "raw") (fun _ => .ok 9)).2.1 1 7 (by omega)
      (by intro j hj; interval_cases j; exact ⟨"boom", rfl⟩) (by rfl)
    simpa using h
  · have h := (claim_C2 (fun _ => (.error "rpcboom" : Except String Nat))
      "d" (fun _ => .error "proxyboom") (fun _ => .ok 9)).2.2.2 "rpcboom"
      "rpcboom" "rpcboom" "proxyboom" rfl rfl rfl rfl
    simpa using h

/-! ## Claim C4 -/

/-- Claim C4, counterexample to the claim as stated: the fixed-size
array type `"uint8[2]"` ends in `"]"` but not in `"[]"`, so the source
routes input `"7"` to `JSON.parse` (here a parser returning the JS
number 7, exactly as `JSON.parse("7")` does), while the claim's reading
(array ⇔ ends in `"[]"`, then `uint*` ⇒ BigInt) yields `7n`.  The two
results differ. -/
theorem claim_C4_counterexample :
    parseInputValue (fun _ => .ok (.vNum 7)) "7" "uint8[2]" =
      .ok (.vNum 7) ∧
    parseInputValueClaimed (fun _ => .ok (.vNum 7)) "7" "uint8[2]" =
      .ok (.vBigInt 7) ∧
    parseInputValue (fun _ => .ok (.vNum 7)) "7" "uint8[2]" ≠
      parseInputValueClaimed (fun _ => .ok (.vNum 7)) "7" "uint8[2]" := by
  refine ⟨rfl, rfl, ?_⟩
  intro h
  rw [show parseInputValue (fun _ => .ok (.vNum 7)) "7" "uint8[2]" =
      .ok (.vNum 7) from rfl,
    show parseInputValueClaimed (fun _ => .ok (.vNum 7)) "7" "uint8[2]" =
      .ok (.vBigInt 7) from rfl] at h
  simp at h

/-- Claim C4 (amended): on the trimmed input text, types ending in `"]"`
(any array suffix, including fixed-size arrays — not only `"[]"` as the
claim says) or starting with `"tuple"` are parsed as JSON with empty
input yielding an empty array; `"bool"` yields true exactly on `"true"`
or `"1"`; remaining types starting with `"uint"`/`"int"` parse as an
arbitrary-precision integer with empty input yielding zero; all other
types pass the trimmed text through unchanged. -/
theorem claim_C4 (jp : String → Except String JsValue) (v t : String) :
    ((strEndsWith t "]" || strStartsWith t "tuple") = true →
      ((jsTrim v).isEmpty = true → parseInputValue jp v t = .ok (.vArr [])) ∧
      ((jsTrim v).isEmpty = false → parseInputValue jp v t = jp (jsTrim v))) ∧
    ((strEndsWith t "]" || strStartsWith t "tuple") = false → t = "bool" →
      parseInputValue jp v t =
        .ok (.vBool (jsTrim v == "true" || jsTrim v == "1"))) ∧
    ((strEndsWith t "]" || strStartsWith t "tuple") = false → t ≠ "bool" →
      (strStartsWith t "uint" || strStartsWith t "int") = true →
      ((jsTrim v).isEmpty = true → parseInputValue jp v t = .ok (.vBigInt 0)) ∧
      ((jsTrim v).isEmpty = false →
        parseInputValue jp v t = (jsBigInt (jsTrim v)).map .vBigInt)) ∧
    ((strEndsWith t "]" || strStartsWith t "tuple") = false → t ≠ "bool" →
      (strStartsWith t "uint" || strStartsWith t "int") = false →
      parseInputValue jp v t = .ok (.vStr (jsTrim v))) := by
  refine ⟨fun h => ⟨fun he => ?_, fun he => ?_⟩, fun h hb => ?_,
    fun h hb hi => ⟨fun he => ?_, fun he => ?_⟩, fun h hb hi => ?_⟩
  · unfold parseInputValue
    simp [h, he]
  · unfold parseInputValue
    simp [h, he]
  · subst hb
    unfold parseInputValue
    simp [h]
  · unfold parseInputValue
    simp [h, hb, hi, he]
  · unfold parseInputValue
    simp [h, hb, hi, he]
  · unfold parseInputValue
    simp [h, hb, hi]

/-- Claim C4 witness: the amended theorem applied to a dynamic array
type, `bool`, an empty `uint256` and an `address` pass-through. -/
theorem claim_C4_witness :
    parseInputValue (fun s => .ok (.vStr s)) " [1] " "uint256[]" =
      .ok (.vStr "[1]") ∧
    parseInputValue (fun s => .ok (.vStr s)) " 1 " "bool" = .ok (.vBool true) ∧
    parseInputValue (fun s => .ok (.vStr s)) "  " "uint256" = .ok (.vBigInt 0) ∧
    parseInputValue (fun s => .ok (.vStr s)) " 0xaB " "address" =
      .ok (.vStr "0xaB") := by
  refine ⟨?_, ?_, ?_, ?_⟩
  · have h := ((claim_C4 (fun s => .ok (.vStr s)) " [1] " "uint256[]").1
      (by decide)).2 (by decide)
    rw [h, show jsTrim " [1] " = "[1]" from by decide]
  · have h := (claim_C4 (fun s => .ok (.vStr s)) " 1 " "bool").2.1
      (by decide) rfl
    rw [h, show (jsTrim " 1 " == "true" || jsTrim " 1 " == "1") = true from by decide]
  · have h := ((claim_C4 (fun s => .ok (.vStr s)) "  " "uint256").2.2.1
      (by decide) (by decide) (by decide)).1 (by decide)
    rw [h]
  · have h := (claim_C4 (fun s => .ok (.vStr s)) " 0xaB " "address").2.2.2
      (by decide) (by decide) (by decide)
    rw [h, show jsTrim " 0xaB " = "0xaB" from by decide]

/-! ## Claim C9 -/

theorem string_isEmpty_false {s : String} (h : s ≠ "") : s.isEmpty = false := by
  cases he : s.isEmpty
  · rfl
  · exact absurd ((String.isEmpty_iff s).mp he) h

theorem upsert_of_not_mem {α : Type} {m : List (String × α)} {k : String}
    (v : α) (h : k ∉ keysOf m) : upsert m k v = m ++ [(k, v)] := by
  unfold upsert
  rw [if_neg]
  intro hany
  simp only [List.any_eq_true, beq_iff_eq] at hany
  obtain ⟨p, hp, hk⟩ := hany
  exact h (hk ▸ List.mem_map_of_mem Prod.fst hp)

theorem buildChildrenObject_spec (jp : String → Except String JsValue)
    (values : List (String × String)) (exponents : List (String × ℚ))
    (tupleArrays : List (String × List TupleArrayRow)) :
    ∀ (children : List ParamNode) (acc : List (String × JsValue))
      (index : Nat) (vs : List JsValue),
      (∀ c ∈ children, c.nameF ≠ "") →
      ((children.map ParamNode.nameF).Nodup) →
      (∀ c ∈ children, c.nameF ∉ keysOf acc) →
      buildChildrenArray jp children values exponents tupleArrays = .ok vs →
      buildChildrenObject jp children index acc values exponents tupleArrays =
        .ok (acc ++ (children.map ParamNode.nameF).zip vs) := by
  intro children
  induction children with
  | nil =>
    intro acc index vs _ _ _ harr
    simp only [buildChildrenArray] at harr
    cases harr
    simp [buildChildrenObject]
  | cons c rest ih =>
    intro acc index vs hne hnd hdisj harr
    rw [buildChildrenArray] at harr
    cases hv : buildNodeCallValue jp c values exponents tupleArrays with
    | error e => rw [hv] at harr; cases harr
    | ok v =>
      rw [hv] at harr
      cases hrest : buildChildrenArray jp rest values exponents tupleArrays with
      | error e => rw [hrest] at harr; cases harr
      | ok vs' =>
        rw [hrest] at harr
        cases harr
        rw [buildChildrenObject, hv]
        dsimp only
        have hcne : c.nameF ≠ "" := hne c (by simp)
        have hk : (if (!c.nameF.isEmpty) = true then c.nameF
            else toString index) = c.nameF := by
          rw [if_pos]
          simp [string_isEmpty_false hcne]
        rw [hk, upsert_of_not_mem v (hdisj c (by simp))]
        have hnotin : c.nameF ∉ List.map ParamNode.nameF rest := by
          have h1 := hnd
          simp only [List.map_cons] at h1
          exact (List.nodup_cons.mp h1).1
        have hrec := ih (acc ++ [(c.nameF, v)]) (index + 1) vs'
          (fun x hx => hne x (by simp [hx]))
          (by
            have h1 := hnd
            simp only [List.map_cons] at h1
            exact (List.nodup_cons.mp h1).2)
          (by
            intro x hx
            unfold keysOf
            simp only [List.map_append, List.mem_append]
            rintro (hm | hm)
            · exact hdisj x (by simp [hx]) hm
            · simp only [List.map_cons, List.map_nil, List.mem_singleton] at hm
              exact hnotin (hm ▸ List.mem_map_of_mem ParamNode.nameF hx))
          hrest
        rw [hrec]
        simp

/-- Claim C9 (confirmed): when every child of a tuple (or tuple-array
row) has a non-empty name, the assembled call value is a plain object
keyed by those names in declaration order (stated for pairwise-distinct
names, which `buildParamNodes` guarantees by defaulting to `argᵢ`); when
some child lacks a name, it is the positional array of the children's
values in declaration order. -/
theorem claim_C9 (jp : String → Except String JsValue)
    (children : List ParamNode) (values : List (String × String))
    (exponents : List (String × ℚ))
    (tupleArrays : List (String × List TupleArrayRow)) (vs : List JsValue)
    (harr : buildChildrenArray jp children values exponents tupleArrays = .ok vs) :
    ((∀ c ∈ children, c.nameF ≠ "") →
      (children.map ParamNode.nameF).Nodup →
      buildChildrenCallValue jp children values exponents tupleArrays =
        .ok (.vObj ((children.map ParamNode.nameF).zip vs))) ∧
    ((∃ c ∈ children, c.nameF = "") →
      buildChildrenCallValue jp children values exponents tupleArrays =
        .ok (.vArr vs)) := by
  constructor
  · intro hne hnd
    have huse : (children.all fun c => !c.nameF.isEmpty) = true := by
      rw [List.all_eq_true]
      intro c hc
      simp [string_isEmpty_false (hne c hc)]
    rw [buildChildrenCallValue, huse]
    simp only [if_true]
    rw [buildChildrenObject_spec jp values exponents tupleArrays children [] 0 vs
      hne hnd (by simp [keysOf]) harr]
    rfl
  · intro ⟨c, hc, hcn⟩
    have huse : (children.all fun c => !c.nameF.isEmpty) = false := by
      rw [List.all_eq_false]
      refine ⟨c, hc, ?_⟩
      rw [hcn]
      decide
    rw [buildChildrenCallValue, huse]
    simp only [Bool.false_eq_true, if_false]
    rw [harr]
    rfl

/-- Claim C9 witness: two named leaves assemble to a name-keyed object;
replacing one name by the empty string yields a positional array. -/
theorem claim_C9_witness :
    buildChildrenCallValue (fun s => .ok (.vStr s))
      [.leaf "0" "a" "address" [0] none, .leaf "1" "b" "address" [1] none]
      [("0", "x"), ("1", "y")] [] [] =
      .ok (.vObj [("a", .vStr "x"), ("b", .vStr "y")]) ∧
    buildChildrenCallValue (fun s => .ok (.vStr s))
      [.leaf "0" "" "address" [0] none, .leaf "1" "b" "address" [1] none]
      [("0", "x"), ("1", "y")] [] [] =
      .ok (.vArr [.vStr "x", .vStr "y"]) := by
  have harr1 : buildChildrenArray (fun s => .ok (.vStr s))
      [.leaf "0" "a" "address" [0] none, .leaf "1" "b" "address" [1] none]
      [("0", "x"), ("1", "y")] [] [] = .ok [.vStr "x", .vStr "y"] := by
    rw [buildChildrenArray, buildNodeCallValue]
    rw [buildChildrenArray, buildNodeCallValue]
    rw [buildChildrenArray]
    simp [SCALE_TYPES, lookupStr, parseInputValue, strEndsWith, strStartsWith,
      jsTrim, jsTrimList, isJsWhitespace, jsBigInt]
  have harr2 : buildChildrenArray (fun s => .ok (.vStr s))
      [.leaf "0" "" "address" [0] none, .leaf "1" "b" "address" [1] none]
      [("0", "x"), ("1", "y")] [] [] = .ok [.vStr "x", .vStr "y"] := by
    rw [buildChildrenArray, buildNodeCallValue]
    rw [buildChildrenArray, buildNodeCallValue]
    rw [buildChildrenArray]
    simp [SCALE_TYPES, lookupStr, parseInputValue, strEndsWith, strStartsWith,
      jsTrim, jsTrimList, isJsWhitespace, jsBigInt]
  constructor
  · have h := (claim_C9 (fun s => .ok (.vStr s)) _ _ _ _ _ harr1).1
      (by decide) (by decide)
    rw [h]
    rfl
  · have h := (claim_C9 (fun s => .ok (.vStr s)) _ _ _ _ _ harr2).2
      ⟨ParamNode.leaf "0" "" "address" [0] none, by simp, rfl⟩
    rw [h]

/-! ## Claim C3 -/

theorem sizeOf_paramComponents_lt (p : AbiParam) :
    sizeOf (paramComponents p) < sizeOf p := by
  cases p with
  | mk n t c =>
    cases c
    all_goals simp [paramComponents, AbiParam.componentsF]
    all_goals omega

theorem buildFrom_length (params : List AbiParam) :
    ∀ i path b, (buildParamNodesFrom params i path b).length = params.length := by
  induction params with
  | nil =>
    intro i path b
    simp [buildParamNodesFrom]
  | cons p rest ih =>
    intro i path b
    rw [buildParamNodesFrom]
    simp [ih]

theorem buildOne_path (p : AbiParam) (i : Nat) (path : List Nat) (b : Bool) :
    (buildOneParamNode p i path b).pathF = path ++ [i] := by
  cases b
  all_goals simp only [buildOneParamNode]
  all_goals split_ifs
  all_goals rfl

theorem buildFrom_paths :
    ∀ (n : Nat) (params : List AbiParam), sizeOf params ≤ n →
    ∀ (i : Nat) (path : List Nat) (b : Bool),
      childrenPathsFrom path i (buildParamNodesFrom params i path b) = true ∧
      pathsOkList (buildParamNodesFrom params i path b) = true := by
  intro n
  induction n with
  | zero =>
    intro params hle
    exfalso
    cases params
    all_goals simp at hle
  | succ n ih =>
    intro params hle i path b
    cases params with
    | nil =>
      constructor
      · simp [buildParamNodesFrom, childrenPathsFrom]
      · simp [buildParamNodesFrom, pathsOkList]
    | cons p rest =>
      have hszp : sizeOf (paramComponents p) ≤ n := by
        have h1 := sizeOf_paramComponents_lt p
        have h2 : sizeOf (p :: rest) = 1 + sizeOf p + sizeOf rest := by simp
        omega
      have hszr : sizeOf rest ≤ n := by
        have h2 : sizeOf (p :: rest) = 1 + sizeOf p + sizeOf rest := by simp
        have h3 : 0 < sizeOf p := by
          cases p with
          | mk a t c =>
            simp only [AbiParam.mk.sizeOf_spec]
            omega
        omega
      have hnode : pathsOkNode (buildOneParamNode p i path b) = true := by
        simp only [buildOneParamNode, ite_self]
        split_ifs with h1 h2
        · have hc := ih (paramComponents p) hszp 0 [] true
          simp [pathsOkNode, hc.1, hc.2]
        · have hc := ih (paramComponents p) hszp 0 (path ++ [i]) b
          simp [pathsOkNode, hc.1, hc.2]
        · simp [pathsOkNode]
      constructor
      · rw [buildParamNodesFrom]
        rw [childrenPathsFrom]
        rw [buildOne_path]
        simp only [beq_self_eq_true, Bool.true_and]
        exact (ih rest hszr (i + 1) path b).1
      · rw [buildParamNodesFrom]
        rw [pathsOkList, hnode]
        simp only [Bool.true_and]
        exact (ih rest hszr (i + 1) path b).2

/-- Claim C3 (confirmed): for every ABI input list the builder returns
exactly as many top-level nodes as there are parameters; it is a pure
function of its arguments (captured by the embedding: equal arguments
give definitionally equal trees); every tuple node's children extend the
tuple's own path by one index, and every tuple-array node's children
restart from the row root (`[0], [1], …`), so per-row field keys repeat
across rows. -/
theorem claim_C3 (params : List AbiParam) (path : List Nat) (b : Bool) :
    (buildParamNodes params path b).length = params.length ∧
    buildParamNodes params path b = buildParamNodes params path b ∧
    childrenPathsFrom path 0 (buildParamNodes params path b) = true ∧
    pathsOkList (buildParamNodes params path b) = true := by
  refine ⟨?_, rfl, ?_, ?_⟩
  · rw [buildParamNodes]
    exact buildFrom_length params 0 path b
  · rw [buildParamNodes]
    exact (buildFrom_paths (sizeOf params) params (le_refl _) 0 path b).1
  · rw [buildParamNodes]
    exact (buildFrom_paths (sizeOf params) params (le_refl _) 0 path b).2

/-! ## Claim C7 -/

theorem formatValueList_eq_map (xs : List JsValue) :
    formatValueList xs = xs.map formatValue := by
  induction xs with
  | nil => simp [formatValueList]
  | cons x rest ih => simp [formatValueList, ih]

theorem upsert_length_le {α : Type} (m : List (String × α)) (k : String)
    (v : α) : m.length ≤ (upsert m k v).length := by
  unfold upsert
  split_ifs
  · simp
  · simp

theorem upsert_length_pos {α : Type} (m : List (String × α)) (k : String)
    (v : α) : 0 < (upsert m k v).length := by
  unfold upsert
  split_ifs with h
  · cases m with
    | nil => simp at h
    | cons p rest => simp
  · simp

theorem formatEntries_length_le :
    ∀ (fs : List (String × JsValue)) (acc : List (String × JsValue)),
      acc.length ≤ (formatEntries fs acc).length := by
  intro fs
  induction fs with
  | nil => intro acc; simp [formatEntries]
  | cons p rest ih =>
    intro acc
    obtain ⟨k, v⟩ := p
    rw [formatEntries]
    split_ifs with h
    · exact le_trans (upsert_length_le acc k (formatValue v)) (ih _)
    · exact ih acc

theorem formatEntries_ne_nil :
    ∀ (fs : List (String × JsValue)) (acc : List (String × JsValue)),
      (∃ p ∈ fs, (stringToNumber p.1).isNone = true) →
      formatEntries fs acc ≠ [] := by
  intro fs
  induction fs with
  | nil =>
    intro acc h
    obtain ⟨p, hp, _⟩ := h
    simp at hp
  | cons q rest ih =>
    intro acc h
    obtain ⟨k, v⟩ := q
    rw [formatEntries]
    split_ifs with hk
    · intro hnil
      have h1 := formatEntries_length_le rest (upsert acc k (formatValue v))
      rw [hnil] at h1
      simp only [List.length_nil, Nat.le_zero] at h1
      have := upsert_length_pos acc k (formatValue v)
      omega
    · apply ih
      obtain ⟨p, hp, hnum⟩ := h
      rcases List.mem_cons.mp hp with rfl | hp2
      · exact absurd hnum (by simp [hk])
      · exact ⟨p, hp2, hnum⟩

theorem formatEntries_all_num :
    ∀ (fs : List (String × JsValue)) (acc : List (String × JsValue)),
      (∀ p ∈ fs, (stringToNumber p.1).isSome = true) →
      formatEntries fs acc = acc := by
  intro fs
  induction fs with
  | nil => intro acc _; simp [formatEntries]
  | cons q rest ih =>
    intro acc h
    obtain ⟨k, v⟩ := q
    rw [formatEntries]
    rw [if_neg (by
      have h2 := h (k, v) (by simp)
      cases hsn : stringToNumber k with
      | none => rw [hsn] at h2; exact absurd h2 (by decide)
      | some q => simp [hsn])]
    exact ih acc (fun p hp => h p (by simp [hp]))

theorem formatEntries_filter :
    ∀ (fs : List (String × JsValue)) (acc : List (String × JsValue)),
      (keysOf fs).Nodup → (∀ k ∈ keysOf fs, k ∉ keysOf acc) →
      formatEntries fs acc =
        acc ++ (fs.filter (fun p => (stringToNumber p.1).isNone)).map
          (fun p => (p.1, formatValue p.2)) := by
  intro fs
  induction fs with
  | nil => intro acc _ _; simp [formatEntries]
  | cons q rest ih =>
    intro acc hnd hdisj
    obtain ⟨k, v⟩ := q
    have hknotin : k ∉ keysOf rest := by
      have h1 := hnd
      simp only [keysOf, List.map_cons] at h1
      exact (List.nodup_cons.mp h1).1
    have hndrest : (keysOf rest).Nodup := by
      have h1 := hnd
      simp only [keysOf, List.map_cons] at h1
      exact (List.nodup_cons.mp h1).2
    rw [formatEntries]
    split_ifs with hk
    · rw [upsert_of_not_mem (formatValue v) (hdisj k (by simp [keysOf]))]
      rw [ih (acc ++ [(k, formatValue v)]) hndrest (by
        intro x hx
        unfold keysOf
        simp only [List.map_append, List.mem_append]
        rintro (hm | hm)
        · exact hdisj x (List.mem_cons_of_mem _ hx) hm
        · simp at hm
          exact hknotin (hm ▸ hx))]
      rw [List.filter_cons_of_pos (by simpa using hk)]
      simp
    · rw [ih acc hndrest (fun x hx => hdisj x (List.mem_cons_of_mem _ hx))]
      rw [List.filter_cons_of_neg (by simpa using hk)]

theorem bigintFreeFields_eq_all (fs : List (String × JsValue)) :
    bigintFreeFields fs = fs.all (fun p => bigintFree p.2) := by
  induction fs with
  | nil => simp [bigintFreeFields]
  | cons p rest ih =>
    obtain ⟨k, v⟩ := p
    simp [bigintFreeFields, ih]

theorem bigintFreeList_eq_all (xs : List JsValue) :
    bigintFreeList xs = xs.all bigintFree := by
  induction xs with
  | nil => simp [bigintFreeList]
  | cons x rest ih => simp [bigintFreeList, ih]

theorem bigintFreeFields_upsert {acc : List (String × JsValue)} {k : String}
    {v : JsValue} (hacc : bigintFreeFields acc = true)
    (hv : bigintFree v = true) :
    bigintFreeFields (upsert acc k v) = true := by
  rw [bigintFreeFields_eq_all] at hacc ⊢
  unfold upsert
  split_ifs with h
  · rw [List.all_eq_true] at hacc ⊢
    intro p hp
    obtain ⟨q, hq, hpq⟩ := List.mem_map.mp hp
    by_cases hqk : q.1 = k
    · rw [if_pos (by simp [hqk])] at hpq
      rw [← hpq]
      exact hv
    · rw [if_neg (by simp [hqk])] at hpq
      rw [← hpq]
      exact hacc q hq
  · rw [List.all_append]
    simp [hacc, hv]

theorem jsValue_sizeOf_pos (v : JsValue) : 0 < sizeOf v := by
  cases v
  all_goals simp

theorem goodDecodedList_mem {xs : List JsValue} {x : JsValue} (hx : x ∈ xs)
    (h : goodDecodedList xs = true) : goodDecoded x = true := by
  induction xs with
  | nil => simp at hx
  | cons z rest ih =>
    rw [goodDecodedList, Bool.and_eq_true] at h
    rcases List.mem_cons.mp hx with rfl | hx2
    · exact h.1
    · exact ih hx2 h.2

theorem formatValue_bigintFree_aux :
    ∀ n : Nat,
      (∀ v : JsValue, sizeOf v ≤ n → goodDecoded v = true →
        bigintFree (formatValue v) = true) ∧
      (∀ fs acc : List (String × JsValue), sizeOf fs ≤ n →
        goodDecodedKept fs = true → bigintFreeFields acc = true →
        bigintFreeFields (formatEntries fs acc) = true) := by
  intro n
  induction n with
  | zero =>
    constructor
    · intro v hle
      exact absurd hle (by have := jsValue_sizeOf_pos v; omega)
    · intro fs acc hle
      cases fs with
      | nil =>
        intro _ hacc
        simpa [formatEntries] using hacc
      | cons p rest => simp at hle
  | succ n ih =>
    constructor
    · intro v hle hgood
      cases v with
      | vUndef => simp [formatValue, bigintFree]
      | vNull => simp [formatValue, bigintFree]
      | vBool b => simp [formatValue, bigintFree]
      | vNum q => simp [formatValue, bigintFree]
      | vStr s => simp [formatValue, bigintFree]
      | vBigInt m => simp [formatValue, bigintFree]
      | vArr xs =>
        rw [formatValue]
        rw [bigintFree, bigintFreeList_eq_all, formatValueList_eq_map]
        rw [List.all_eq_true]
        intro y hy
        obtain ⟨x, hx, hxy⟩ := List.mem_map.mp hy
        have hszx : sizeOf x ≤ n := by
          have h1 := List.sizeOf_lt_of_mem hx
          have h2 : sizeOf (JsValue.vArr xs) = 1 + sizeOf xs := by simp
          omega
        have hgx : goodDecoded x = true := by
          rw [goodDecoded] at hgood
          exact goodDecodedList_mem hx hgood
        rw [← hxy]
        exact (ih).1 x hszx hgx
      | vObj fs =>
        rw [formatValue]
        rw [goodDecoded, Bool.and_eq_true] at hgood
        obtain ⟨hne, hkept⟩ := hgood
        have hszfs : sizeOf fs ≤ n := by
          have h2 : sizeOf (JsValue.vObj fs) = 1 + sizeOf fs := by simp
          omega
        have hentries : bigintFreeFields (formatEntries fs []) = true :=
          (ih).2 fs [] hszfs hkept (by simp [bigintFreeFields])
        by_cases he : (formatEntries fs []).isEmpty
        · rw [if_neg (by simp [he])]
          rw [Bool.or_eq_true] at hne
          rcases hne with hfs | hany
          · rw [bigintFree, bigintFreeFields_eq_all]
            rw [List.isEmpty_iff] at hfs
            rw [hfs]
            rfl
          · exfalso
            rw [List.any_eq_true] at hany
            obtain ⟨p, hp, hnum⟩ := hany
            rw [List.isEmpty_iff] at he
            exact formatEntries_ne_nil fs [] ⟨p, hp, hnum⟩ he
        · rw [if_pos (by simp [he])]
          rw [bigintFree]
          exact hentries
    · intro fs acc hle hkept hacc
      cases fs with
      | nil => simpa [formatEntries] using hacc
      | cons q rest =>
        obtain ⟨k, v⟩ := q
        rw [formatEntries]
        rw [goodDecodedKept] at hkept
        rw [Bool.and_eq_true] at hkept
        obtain ⟨hv, hrest⟩ := hkept
        have hszr : sizeOf rest ≤ n := by
          simp only [List.cons.sizeOf_spec] at hle
          omega
        split_ifs with hk
        · have hfv : bigintFree (formatValue v) = true := by
            apply (ih).1 v (by
              simp only [List.cons.sizeOf_spec, Prod.mk.sizeOf_spec] at hle
              omega)
            rw [if_pos hk] at hv
            exact hv
          exact (ih).2 rest _ hszr hrest (bigintFreeFields_upsert hacc hfv)
        · exact (ih).2 rest acc hszr hrest hacc

/-- Claim C7, counterexample to the claim as stated: the array-like
object `{0: 1n, 1: 2n, length: 2}` does not collapse to a conventional
array — the numeric keys are dropped but the non-numeric `"length"` key
survives, producing the object `{length: 2}`; and an object whose keys
are all numeric (`{0: 7n}`) is returned unchanged, its BigInt not
converted to a string. -/
theorem claim_C7_counterexample :
    formatValue (.vObj [("0", .vBigInt 1), ("1", .vBigInt 2),
      ("length", .vNum 2)]) = .vObj [("length", .vNum 2)] ∧
    isArrResult (formatValue (.vObj [("0", .vBigInt 1), ("1", .vBigInt 2),
      ("length", .vNum 2)])) = false ∧
    formatValue (.vObj [("0", .vBigInt 7)]) = .vObj [("0", .vBigInt 7)] := by
  have h0 : (stringToNumber "0").isNone = false := by decide
  have h1 : (stringToNumber "1").isNone = false := by decide
  have hlen : (stringToNumber "length").isNone = true := by decide
  have he : formatEntries [("0", JsValue.vBigInt 1), ("1", JsValue.vBigInt 2),
      ("length", JsValue.vNum 2)] [] = [("length", .vNum 2)] := by
    rw [formatEntries, if_neg (by simp [h0])]
    rw [formatEntries, if_neg (by simp [h1])]
    rw [formatEntries, if_pos (by simp [hlen])]
    rw [formatEntries]
    simp [upsert, formatValue]
  have he2 : formatEntries [("0", JsValue.vBigInt 7)] [] = [] := by
    rw [formatEntries, if_neg (by simp [h0])]
    rw [formatEntries]
  refine ⟨?_, ?_, ?_⟩
  · rw [formatValue, he]
    simp
  · rw [formatValue, he]
    simp [isArrResult]
  · rw [formatValue, he2]
    simp

/-- Claim C7 (amended): the formatter converts BigInts to decimal
strings and maps arrays recursively; for objects it drops the keys whose
`Number` coercion is not `NaN` (purely-numeric keys) and recursively
formats the surviving entries — but only when at least one key survives;
an object whose keys are all numeric is returned unchanged (so
`{0:…,1:…,length:…}` becomes the object `{length:…}`, not an array);
consequently every decoded value whose objects are struct-like (empty or
keeping at least one non-numeric key, recursively) formats to a
BigInt-free displayable value. -/
theorem claim_C7 :
    (∀ n : Int, formatValue (.vBigInt n) = .vStr (toString n)) ∧
    (∀ xs : List JsValue, formatValue (.vArr xs) = .vArr (xs.map formatValue)) ∧
    (∀ fs : List (String × JsValue), (keysOf fs).Nodup →
      (∃ p ∈ fs, (stringToNumber p.1).isNone = true) →
      formatValue (.vObj fs) =
        .vObj ((fs.filter (fun p => (stringToNumber p.1).isNone)).map
          (fun p => (p.1, formatValue p.2)))) ∧
    (∀ fs : List (String × JsValue),
      (∀ p ∈ fs, (stringToNumber p.1).isSome = true) →
      formatValue (.vObj fs) = .vObj fs) ∧
    (∀ v : JsValue, goodDecoded v = true →
      bigintFree (formatValue v) = true) := by
  refine ⟨fun n => by rw [formatValue],
    fun xs => by rw [formatValue, formatValueList_eq_map], ?_, ?_, ?_⟩
  · intro fs hnd hx
    rw [formatValue]
    rw [formatEntries_filter fs [] hnd (by simp [keysOf])]
    rw [if_pos (by
      simp only [List.nil_append]
      have := formatEntries_ne_nil fs [] hx
      rw [formatEntries_filter fs [] hnd (by simp [keysOf])] at this
      simp only [List.nil_append] at this
      simp [List.isEmpty_iff, this])]
    simp
  · intro fs hall
    rw [formatValue]
    rw [formatEntries_all_num fs [] hall]
    simp
  · intro v hgood
    exact (formatValue_bigintFree_aux (sizeOf v)).1 v (le_refl _) hgood

/-- Claim C7 witness: the amended theorem applied to a BigInt, an array
of BigInts, a struct-like object with one numeric and one named key, an
all-numeric object, and a struct whose goodness is checked
concretely. -/
theorem claim_C7_witness :
    formatValue (.vBigInt 5) = .vStr "5" ∧
    formatValue (.vArr [.vBigInt 5]) = .vArr [formatValue (.vBigInt 5)] ∧
    formatValue (.vObj [("0", .vBigInt 1), ("total", .vBigInt 2)]) =
      .vObj [("total", formatValue (.vBigInt 2))] ∧
    formatValue (.vObj [("0", .vBigInt 7)]) = .vObj [("0", .vBigInt 7)] ∧
    bigintFree (formatValue (.vObj [("total", .vBigInt 2)])) = true := by
  refine ⟨?_, ?_, ?_, ?_, ?_⟩
  · rw [claim_C7.1 5]
    rfl
  · rw [claim_C7.2.1 [.vBigInt 5]]
    rfl
  · have h := claim_C7.2.2.1 [("0", .vBigInt 1), ("total", .vBigInt 2)]
      (by simp [keysOf]) ⟨("total", .vBigInt 2), by simp, by decide⟩
    rw [h]
    rw [show (List.filter (fun p => (stringToNumber p.1).isNone)
      [("0", JsValue.vBigInt 1), ("total", JsValue.vBigInt 2)]) =
      [("total", JsValue.vBigInt 2)] by
        rw [List.filter_cons_of_neg (by decide), List.filter_cons_of_pos (by decide)]
        rfl]
    rfl
  · exact claim_C7.2.2.2.1 [("0", .vBigInt 7)] (by
      intro p hp
      simp at hp
      subst hp
      decide)
  · exact claim_C7.2.2.2.2 (.vObj [("total", .vBigInt 2)]) (by
      rw [goodDecoded]
      rw [goodDecodedKept, goodDecodedKept]
      simp only [show (stringToNumber "total").isNone = true from by decide]
      simp [goodDecoded]
      decide)

/-! ## Claim C6 -/

theorem contains_eq_false_of_not_mem {l : List String} {x : String}
    (h : x ∉ l) : l.contains x = false := by
  cases hc : l.contains x
  · rfl
  · exact absurd (by simpa using hc) h

theorem pickFreshId_spec (supply : Nat → String)
    (prevIds importedIds : List String)
    (hsupInj : ∀ j k, j ≠ k → supply j ≠ supply k)
    (hsupFresh : ∀ k, supply k ∉ prevIds ∧ supply k ∉ importedIds)
    (fuel : Nat) (hfuel : 2 ≤ fuel) (used : List String) (cand : String)
    (k : Nat)
    (husedSub : ∀ x ∈ used, x ∈ prevIds ∨ x ∈ importedIds ∨
      ∃ j, j < k ∧ x = supply j) :
    (cand ∉ used → pickFreshId used cand supply k fuel = some (cand, k)) ∧
    (cand ∈ used → pickFreshId used cand supply k fuel =
      some (supply k, k + 1)) := by
  have hsk : supply k ∉ used := by
    intro hm
    rcases husedSub (supply k) hm with h | h | ⟨j, hj, hje⟩
    · exact (hsupFresh k).1 h
    · exact (hsupFresh k).2 h
    · exact hsupInj j k (by omega) hje.symm
  obtain ⟨f1, rfl⟩ : ∃ f1, fuel = f1 + 1 := ⟨fuel - 1, by omega⟩
  obtain ⟨f2, rfl⟩ : ∃ f2, f1 = f2 + 1 := ⟨f1 - 1, by omega⟩
  constructor
  · intro hnm
    have hc : used.contains cand = false := contains_eq_false_of_not_mem hnm
    rw [pickFreshId]
    rw [if_neg (by rw [hc]; exact Bool.false_ne_true)]
  · intro hm
    have hc2 : used.contains (supply k) = false :=
      contains_eq_false_of_not_mem hsk
    rw [pickFreshId]
    rw [if_pos (by simpa using hm)]
    rw [pickFreshId]
    rw [if_neg (by rw [hc2]; exact Bool.false_ne_true)]

theorem importGo_spec (supply : Nat → String) (now : String) (fuel : Nat)
    (prevIds importedIds : List String)
    (hsupInj : ∀ j k, j ≠ k → supply j ≠ supply k)
    (hsupFresh : ∀ k, supply k ∉ prevIds ∧ supply k ∉ importedIds)
    (hfuel : 2 ≤ fuel) :
    ∀ (rem : List Template) (used : List String) (acc : List Template)
      (k : Nat),
      (∀ t ∈ rem, t.id ∈ importedIds) →
      (∀ x, x ∈ used ↔ x ∈ acc.map Template.id) →
      ((acc.map Template.id).Nodup) →
      (∀ x ∈ used, x ∈ prevIds ∨ x ∈ importedIds ∨
        ∃ j, j < k ∧ x = supply j) →
      ∃ appended,
        importTemplatesGo supply now fuel rem used acc k =
          some (acc ++ appended) ∧
        appended.length = rem.length ∧
        (((acc ++ appended).map Template.id).Nodup) ∧
        (∀ i (hi : i < rem.length) (hi2 : i < appended.length),
          ((appended.get ⟨i, hi2⟩).name = (rem.get ⟨i, hi⟩).name ∧
           (appended.get ⟨i, hi2⟩).panel = (rem.get ⟨i, hi⟩).panel ∧
           (appended.get ⟨i, hi2⟩).methodStates =
             (rem.get ⟨i, hi⟩).methodStates ∧
           (appended.get ⟨i, hi2⟩).createdAt = (rem.get ⟨i, hi⟩).createdAt ∧
           (appended.get ⟨i, hi2⟩).updatedAt = now) ∧
          ((rem.get ⟨i, hi⟩).id ∉ (acc ++ appended.take i).map Template.id →
            (appended.get ⟨i, hi2⟩).id = (rem.get ⟨i, hi⟩).id) ∧
          ((rem.get ⟨i, hi⟩).id ∈ (acc ++ appended.take i).map Template.id →
            ∃ j, (appended.get ⟨i, hi2⟩).id = supply j)) := by
  intro rem
  induction rem with
  | nil =>
    intro used acc k _ _ hnd _
    refine ⟨[], ?_, rfl, by simpa using hnd, ?_⟩
    · rw [importTemplatesGo]
      simp
    · intro i hi
      simp at hi
  | cons t rest ih =>
    intro used acc k hsub hiff hnd husedSub
    have hpick := pickFreshId_spec supply prevIds importedIds hsupInj
      hsupFresh fuel hfuel used t.id k husedSub
    by_cases hmem : t.id ∈ used
    · -- collision: a fresh id is generated
      rw [importTemplatesGo, hpick.2 hmem]
      have hskn : supply k ∉ used := by
        intro hm
        rcases husedSub (supply k) hm with h | h | ⟨j, hj, hje⟩
        · exact (hsupFresh k).1 h
        · exact (hsupFresh k).2 h
        · exact hsupInj j k (by omega) hje.symm
      obtain ⟨appended, h1, h2, h3, h4⟩ := ih (supply k :: used)
        (acc ++ [{ t with id := supply k, updatedAt := now }]) (k + 1)
        (fun x hx => hsub x (by simp [hx]))
        (by
          intro x
          simp only [List.mem_cons, List.map_append, List.mem_append]
          rw [hiff x]
          simp [or_comm])
        (by
          rw [List.map_append]
          apply List.Nodup.append hnd (by simp)
          intro x hx hx2
          simp at hx2
          rw [hx2] at hx
          exact hskn ((hiff (supply k)).mpr hx))
        (by
          intro x hx
          rcases List.mem_cons.mp hx with rfl | hx2
          · exact Or.inr (Or.inr ⟨k, by omega, rfl⟩)
          · rcases husedSub x hx2 with h | h | ⟨j, hj, hje⟩
            · exact Or.inl h
            · exact Or.inr (Or.inl h)
            · exact Or.inr (Or.inr ⟨j, by omega, hje⟩))
      refine ⟨{ t with id := supply k, updatedAt := now } :: appended, ?_,
        by simpa using h2, ?_, ?_⟩
      · show importTemplatesGo supply now fuel rest (supply k :: used)
          (acc ++ [{ t with id := supply k, updatedAt := now }]) (k + 1) = _
        rw [h1]
        simp
      · have h5 := h3
        rw [List.append_assoc] at h5
        simpa using h5
      · intro i hi hi2
        cases i with
        | zero =>
          refine ⟨⟨rfl, rfl, rfl, rfl, rfl⟩, ?_, ?_⟩
          · intro hnotin
            exfalso
            apply hnotin
            simp only [List.take_zero, List.append_nil]
            exact (hiff t.id).mp hmem
          · intro _
            exact ⟨k, rfl⟩
        | succ i' =>
          have hi' : i' < rest.length := by simpa using hi
          have hi2' : i' < appended.length := by simpa using hi2
          have h := h4 i' hi' hi2'
          refine ⟨h.1, ?_, ?_⟩
          · intro hnotin
            apply h.2.1
            intro hmem2
            apply hnotin
            rw [List.take_succ_cons, List.append_cons]
            exact hmem2
          · intro hmem2
            apply h.2.2
            rw [List.take_succ_cons, List.append_cons] at hmem2
            exact hmem2
    · -- no collision: the imported id is kept
      rw [importTemplatesGo, hpick.1 hmem]
      obtain ⟨appended, h1, h2, h3, h4⟩ := ih (t.id :: used)
        (acc ++ [{ t with id := t.id, updatedAt := now }]) k
        (fun x hx => hsub x (by simp [hx]))
        (by
          intro x
          simp only [List.mem_cons, List.map_append, List.mem_append]
          rw [hiff x]
          simp [or_comm])
        (by
          rw [List.map_append]
          apply List.Nodup.append hnd (by simp)
          intro x hx hx2
          simp at hx2
          rw [hx2] at hx
          exact hmem ((hiff t.id).mpr hx))
        (by
          intro x hx
          rcases List.mem_cons.mp hx with rfl | hx2
          · exact Or.inr (Or.inl (hsub t (by simp)))
          · exact husedSub x hx2)
      refine ⟨{ t with id := t.id, updatedAt := now } :: appended, ?_,
        by simpa using h2, ?_, ?_⟩
      · show importTemplatesGo supply now fuel rest (t.id :: used)
          (acc ++ [{ t with id := t.id, updatedAt := now }]) k = _
        rw [h1]
        simp
      · have h5 := h3
        rw [List.append_assoc] at h5
        simpa using h5
      · intro i hi hi2
        cases i with
        | zero =>
          refine ⟨⟨rfl, rfl, rfl, rfl, rfl⟩, fun _ => rfl, ?_⟩
          · intro hmem2
            exfalso
            simp only [List.take_zero, List.append_nil] at hmem2
            exact hmem ((hiff t.id).mpr hmem2)
        | succ i' =>
          have hi' : i' < rest.length := by simpa using hi
          have hi2' : i' < appended.length := by simpa using hi2
          have h := h4 i' hi' hi2'
          refine ⟨h.1, ?_, ?_⟩
          · intro hnotin
            apply h.2.1
            intro hmem2
            apply hnotin
            rw [List.take_succ_cons, List.append_cons]
            exact hmem2
          · intro hmem2
            apply h.2.2
            rw [List.take_succ_cons, List.append_cons] at hmem2
            exact hmem2

/-- Claim C6 (confirmed): for a prior template list with pairwise-distinct
ids and any batch of (sanitised) imported templates, the import operation
produces a list with pairwise-distinct ids that preserves all prior
templates unchanged, appends one entry per imported template (same name,
panel, method states and creation time, with the updated time refreshed),
keeps each imported template's id when it does not collide with an
already-used id, and substitutes a freshly generated id on collision.
The id generator is modelled as an injective supply of strings distinct
from all prior and imported ids; the unbounded `while` collision loop
then terminates within any fuel ≥ 2. -/
theorem claim_C6 (prev imported : List Template) (supply : Nat → String)
    (now : String) (fuel : Nat)
    (hnd : (prev.map Template.id).Nodup)
    (hsupInj : ∀ j k, j ≠ k → supply j ≠ supply k)
    (hsupFresh : ∀ k, supply k ∉ prev.map Template.id ∧
      supply k ∉ imported.map Template.id)
    (hfuel : 2 ≤ fuel) :
    ∃ appended,
      importTemplates prev imported supply now fuel =
        some (prev ++ appended) ∧
      appended.length = imported.length ∧
      (((prev ++ appended).map Template.id).Nodup) ∧
      (∀ i (hi : i < imported.length) (hi2 : i < appended.length),
        ((appended.get ⟨i, hi2⟩).name = (imported.get ⟨i, hi⟩).name ∧
         (appended.get ⟨i, hi2⟩).panel = (imported.get ⟨i, hi⟩).panel ∧
         (appended.get ⟨i, hi2⟩).methodStates =
           (imported.get ⟨i, hi⟩).methodStates ∧
         (appended.get ⟨i, hi2⟩).createdAt =
           (imported.get ⟨i, hi⟩).createdAt ∧
         (appended.get ⟨i, hi2⟩).updatedAt = now) ∧
        ((imported.get ⟨i, hi⟩).id ∉
            (prev ++ appended.take i).map Template.id →
          (appended.get ⟨i, hi2⟩).id = (imported.get ⟨i, hi⟩).id) ∧
        ((imported.get ⟨i, hi⟩).id ∈
            (prev ++ appended.take i).map Template.id →
          ∃ j, (appended.get ⟨i, hi2⟩).id = supply j)) := by
  exact importGo_spec supply now fuel (prev.map Template.id)
    (imported.map Template.id) hsupInj hsupFresh hfuel imported
    (prev.map Template.id) prev 0
    (fun t ht => List.mem_map_of_mem Template.id ht)
    (fun x => Iff.rfl) hnd
    (fun x hx => Or.inl hx)

/-- Claim C6 witness: one prior template with id `"a"`; two imports, the
first colliding on `"a"` (renamed to the generated `"g"`), the second
keeping its id `"b"`. -/
theorem claim_C6_witness :
    importTemplates
      [⟨"a", "one", ⟨"", "", "", "", "", "", "", ""⟩, [], "c1", "u1"⟩]
      [⟨"a", "two", ⟨"", "", "", "", "", "", "", ""⟩, [], "c2", "u2"⟩,
       ⟨"b", "three", ⟨"", "", "", "", "", "", "", ""⟩, [], "c3", "u3"⟩]
      (fun j => String.mk (List.replicate (j + 1) 'g')) "now" 2 =
      some
        [⟨"a", "one", ⟨"", "", "", "", "", "", "", ""⟩, [], "c1", "u1"⟩,
         ⟨"g", "two", ⟨"", "", "", "", "", "", "", ""⟩, [], "c2", "now"⟩,
         ⟨"b", "three", ⟨"", "", "", "", "", "", "", ""⟩, [], "c3", "now"⟩] := by
  obtain ⟨appended, h1, h2, h3, h4⟩ := claim_C6
    [⟨"a", "one", ⟨"", "", "", "", "", "", "", ""⟩, [], "c1", "u1"⟩]
    [⟨"a", "two", ⟨"", "", "", "", "", "", "", ""⟩, [], "c2", "u2"⟩,
     ⟨"b", "three", ⟨"", "", "", "", "", "", "", ""⟩, [], "c3", "u3"⟩]
    (fun j => String.mk (List.replicate (j + 1) 'g')) "now" 2
    (by simp)
    (by
      intro j k hjk heq
      apply hjk
      have := congrArg (fun s => s.data.length) heq
      simpa using this)
    (by
      intro k
      constructor
      · intro hm
        rw [List.map_cons, List.map_nil, List.mem_singleton] at hm
        have hd := congrArg String.data hm
        rw [show ("a" : String).data = ['a'] from rfl,
          show (String.mk (List.replicate (k + 1) 'g')).data =
            'g' :: List.replicate k 'g' from by rw [List.replicate_succ]] at hd
        simp at hd
      · intro hm
        rw [List.map_cons, List.map_cons, List.map_nil, List.mem_cons,
          List.mem_singleton] at hm
        rcases hm with hm | hm
        · have hd := congrArg String.data hm
          rw [show ("a" : String).data = ['a'] from rfl,
            show (String.mk (List.replicate (k + 1) 'g')).data =
              'g' :: List.replicate k 'g' from by rw [List.replicate_succ]] at hd
          simp at hd
        · have hd := congrArg String.data hm
          rw [show ("b" : String).data = ['b'] from rfl,
            show (String.mk (List.replicate (k + 1) 'g')).data =
              'g' :: List.replicate k 'g' from by rw [List.replicate_succ]] at hd
          simp at hd)
    (by omega)
  decide

/-! ## Claims C5 and C8: sanitiser well-formedness -/

theorem keysOf_upsert_of_any {α : Type} {m : List (String × α)} {k : String}
    {v : α} (h : m.any (fun p => p.1 == k) = true) :
    keysOf (upsert m k v) = keysOf m := by
  unfold upsert
  rw [if_pos h]
  unfold keysOf
  rw [List.map_map]
  apply List.map_congr_left
  intro p _
  by_cases hp : p.1 = k
  · simp [hp]
  · simp [hp]

theorem keysOf_upsert_of_not_any {α : Type} {m : List (String × α)}
    {k : String} {v : α} (h : m.any (fun p => p.1 == k) = false) :
    keysOf (upsert m k v) = keysOf m ++ [k] := by
  unfold upsert
  rw [if_neg (by simp [h])]
  unfold keysOf
  simp

theorem upsert_keys_subset {α : Type} {m : List (String × α)} {k : String}
    {v : α} {x : String} (h : x ∈ keysOf (upsert m k v)) :
    x ∈ keysOf m ∨ x = k := by
  cases ha : m.any (fun p => p.1 == k)
  · rw [keysOf_upsert_of_not_any ha] at h
    rcases List.mem_append.mp h with h2 | h2
    · exact Or.inl h2
    · exact Or.inr (by simpa using h2)
  · rw [keysOf_upsert_of_any ha] at h
    exact Or.inl h

theorem upsert_keys_nodup {α : Type} {m : List (String × α)} {k : String}
    {v : α} (h : (keysOf m).Nodup) : (keysOf (upsert m k v)).Nodup := by
  cases ha : m.any (fun p => p.1 == k)
  · rw [keysOf_upsert_of_not_any ha]
    apply List.Nodup.append h (by simp)
    intro x hx hx2
    simp at hx2
    subst hx2
    unfold keysOf at hx
    obtain ⟨p, hp, hpk⟩ := List.mem_map.mp hx
    rw [List.any_eq_false] at ha
    exact absurd (by simp [hpk]) (ha p hp)
  · rw [keysOf_upsert_of_any ha]
    exact h

theorem upsert_snd_subset {α : Type} {m : List (String × α)} {k : String}
    {v : α} {y : α} (h : y ∈ (upsert m k v).map Prod.snd) :
    y ∈ m.map Prod.snd ∨ y = v := by
  unfold upsert at h
  split_ifs at h
  · rw [List.map_map] at h
    obtain ⟨p, hp, hpy⟩ := List.mem_map.mp h
    by_cases hpk : p.1 = k
    · simp [hpk] at hpy
      exact Or.inr hpy.symm
    · simp [hpk] at hpy
      exact Or.inl (hpy ▸ List.mem_map_of_mem Prod.snd hp)
  · rw [List.map_append] at h
    rcases List.mem_append.mp h with h2 | h2
    · exact Or.inl h2
    · exact Or.inr (by simpa using h2)

theorem strMapFold_keys_nodup :
    ∀ (entries : List (String × JsValue)) (acc : List (String × String)),
      (keysOf acc).Nodup → (keysOf (strMapFold entries acc)).Nodup := by
  intro entries
  induction entries with
  | nil => intro acc h; simpa [strMapFold] using h
  | cons e rest ih =>
    intro acc h
    obtain ⟨k, v⟩ := e
    rw [strMapFold]
    exact ih _ (upsert_keys_nodup h)

theorem expFold_keys_nodup :
    ∀ (entries : List (String × JsValue)) (acc : List (String × ℚ)),
      (keysOf acc).Nodup → (keysOf (expFold entries acc)).Nodup := by
  intro entries
  induction entries with
  | nil => intro acc h; simpa [expFold] using h
  | cons e rest ih =>
    intro acc h
    obtain ⟨k, v⟩ := e
    rw [expFold]
    exact ih _ (upsert_keys_nodup h)

theorem rowValuesFold_keys_nodup :
    ∀ (entries : List (String × JsValue)) (acc : List (String × String)),
      (keysOf acc).Nodup → (keysOf (rowValuesFold entries acc)).Nodup := by
  intro entries
  induction entries with
  | nil => intro acc h; simpa [rowValuesFold] using h
  | cons e rest ih =>
    intro acc h
    obtain ⟨k, v⟩ := e
    rw [rowValuesFold]
    split_ifs
    · exact ih acc h
    · exact ih _ (upsert_keys_nodup h)

theorem rowValuesFold_keys_avoid :
    ∀ (entries : List (String × JsValue)) (acc : List (String × String)),
      (∀ k ∈ keysOf acc, k ≠ "values" ∧ k ≠ "exponents") →
      ∀ k ∈ keysOf (rowValuesFold entries acc),
        k ≠ "values" ∧ k ≠ "exponents" := by
  intro entries
  induction entries with
  | nil =>
    intro acc h k hk
    exact h k (by simpa [rowValuesFold] using hk)
  | cons e rest ih =>
    intro acc h k hk
    obtain ⟨ek, ev⟩ := e
    rw [rowValuesFold] at hk
    split_ifs at hk with hskip
    · exact ih acc h k hk
    · refine ih _ ?_ k hk
      intro x hx
      rcases upsert_keys_subset hx with h2 | h2
      · exact h x h2
      · subst h2
        simp only [Bool.or_eq_true, beq_iff_eq] at hskip
        push_neg at hskip
        exact hskip

theorem tupleArrayMapFold_keys_nodup :
    ∀ (entries : List (String × JsValue))
      (acc : List (String × List TupleArrayRow)),
      (keysOf acc).Nodup → (keysOf (tupleArrayMapFold entries acc)).Nodup := by
  intro entries
  induction entries with
  | nil => intro acc h; simpa [tupleArrayMapFold] using h
  | cons e rest ih =>
    intro acc h
    obtain ⟨k, v⟩ := e
    rw [tupleArrayMapFold]
    split_ifs
    · exact ih _ (upsert_keys_nodup h)
    · exact ih acc h

theorem tupleArrayMapFold_snd :
    ∀ (entries : List (String × JsValue))
      (acc : List (String × List TupleArrayRow))
      (rows : List TupleArrayRow),
      rows ∈ (tupleArrayMapFold entries acc).map Prod.snd →
      rows ∈ acc.map Prod.snd ∨
        ∃ xs : List JsValue, rows = xs.map sanitizeTupleArrayRow := by
  intro entries
  induction entries with
  | nil =>
    intro acc rows h
    rw [tupleArrayMapFold] at h
    exact Or.inl h
  | cons e rest ih =>
    intro acc rows h
    obtain ⟨k, v⟩ := e
    rw [tupleArrayMapFold] at h
    split_ifs at h
    · rcases ih _ rows h with h2 | h2
      · rcases upsert_snd_subset h2 with h3 | h3
        · exact Or.inl h3
        · exact Or.inr ⟨arrElems v, h3⟩
      · exact Or.inr h2
    · exact ih acc rows h

theorem methodStatesFold_keys_nodup :
    ∀ (entries : List (String × JsValue))
      (acc : List (String × MethodState)),
      (keysOf acc).Nodup → (keysOf (methodStatesFold entries acc)).Nodup := by
  intro entries
  induction entries with
  | nil => intro acc h; simpa [methodStatesFold] using h
  | cons e rest ih =>
    intro acc h
    obtain ⟨k, v⟩ := e
    rw [methodStatesFold]
    exact ih _ (upsert_keys_nodup h)

theorem methodStatesFold_snd :
    ∀ (entries : List (String × JsValue))
      (acc : List (String × MethodState)) (ms : MethodState),
      ms ∈ (methodStatesFold entries acc).map Prod.snd →
      ms ∈ acc.map Prod.snd ∨ ∃ v, ms = sanitizeMethodState v := by
  intro entries
  induction entries with
  | nil =>
    intro acc ms h
    rw [methodStatesFold] at h
    exact Or.inl h
  | cons e rest ih =>
    intro acc ms h
    obtain ⟨k, v⟩ := e
    rw [methodStatesFold] at h
    rcases ih _ ms h with h2 | h2
    · rcases upsert_snd_subset h2 with h3 | h3
      · exact Or.inl h3
      · exact Or.inr ⟨v, h3⟩
    · exact Or.inr h2

theorem sanitizeTupleArrayRow_WF (raw : JsValue) :
    RowWF (sanitizeTupleArrayRow raw) := by
  unfold sanitizeTupleArrayRow RowWF
  dsimp only
  refine ⟨?_, ?_, ?_⟩
  · split_ifs
    all_goals exact rowValuesFold_keys_nodup _ [] (by simp [keysOf])
  · split_ifs
    all_goals exact rowValuesFold_keys_avoid _ [] (by simp [keysOf])
  · split_ifs
    all_goals first
      | exact expFold_keys_nodup _ [] (by simp [keysOf])
      | simp [keysOf]

theorem sanitizeMethodState_WF (raw : JsValue) :
    MethodStateWF (sanitizeMethodState raw) := by
  unfold sanitizeMethodState MethodStateWF
  dsimp only
  refine ⟨?_, ?_, ?_, ?_⟩
  · split_ifs
    all_goals first
      | exact strMapFold_keys_nodup _ [] (by simp [keysOf])
      | simp [keysOf]
  · split_ifs
    all_goals first
      | exact expFold_keys_nodup _ [] (by simp [keysOf])
      | simp [keysOf]
  · unfold sanitizeTupleArrayMap
    split_ifs
    all_goals first
      | exact tupleArrayMapFold_keys_nodup _ [] (by simp [keysOf])
      | simp [keysOf]
  · intro rows hrows r hr
    unfold sanitizeTupleArrayMap at hrows
    split_ifs at hrows
    all_goals first
      | simp only [List.map_nil, List.not_mem_nil] at hrows
      | (rcases tupleArrayMapFold_snd _ [] rows hrows with h2 | ⟨xs, h2⟩
         · simp at h2
         · subst h2
           obtain ⟨x, hxm, hx⟩ := List.mem_map.mp hr
           exact hx ▸ sanitizeTupleArrayRow_WF x)

theorem sanitizeTemplate_WF {gid now : String} {raw : JsValue} {t : Template}
    (h : sanitizeTemplate gid now raw = some t) : TemplateWF t := by
  unfold sanitizeTemplate at h
  dsimp only at h
  split_ifs at h with h1 h2
  rw [Option.some.injEq] at h
  subst h
  refine ⟨by simpa using h2, jsTrim_idem _, ?_, ?_⟩
  · unfold sanitizeMethodStates
    split_ifs
    all_goals first
      | exact methodStatesFold_keys_nodup _ [] (by simp [keysOf])
      | simp [keysOf]
  · intro ms hms
    unfold sanitizeMethodStates at hms
    split_ifs at hms
    all_goals first
      | (dsimp only at hms
         simp only [List.map_nil, List.not_mem_nil] at hms)
      | (rcases methodStatesFold_snd _ [] ms hms with h3 | ⟨v, h3⟩
         · simp at h3
         · exact h3 ▸ sanitizeMethodState_WF v)

theorem expCoerce_vNum (q : ℚ) : expCoerce (.vNum q) = q := by
  unfold expCoerce orD jsTruthy
  by_cases hq : q = 0
  · subst hq
    simp [jsToNumber]
  · simp [hq, jsToNumber]

theorem strMapFold_spec :
    ∀ (entries : List (String × JsValue)) (acc : List (String × String)),
      (keysOf entries).Nodup → (∀ k ∈ keysOf entries, k ∉ keysOf acc) →
      strMapFold entries acc =
        acc ++ entries.map
          (fun p => (p.1, jsToString (nullishD p.2 (.vStr "")))) := by
  intro entries
  induction entries with
  | nil => intro acc _ _; simp [strMapFold]
  | cons e rest ih =>
    intro acc hnd hdisj
    obtain ⟨k, v⟩ := e
    have hknotin : k ∉ keysOf rest := by
      have h1 := hnd
      simp only [keysOf, List.map_cons] at h1
      exact (List.nodup_cons.mp h1).1
    have hndrest : (keysOf rest).Nodup := by
      have h1 := hnd
      simp only [keysOf, List.map_cons] at h1
      exact (List.nodup_cons.mp h1).2
    rw [strMapFold]
    rw [upsert_of_not_mem _ (hdisj k (by simp [keysOf]))]
    rw [ih _ hndrest (by
      intro x hx
      unfold keysOf
      simp only [List.map_append, List.mem_append]
      rintro (hm | hm)
      · exact hdisj x (List.mem_cons_of_mem _ hx) hm
      · simp at hm
        exact hknotin (hm ▸ hx))]
    simp

theorem expFold_spec :
    ∀ (entries : List (String × JsValue)) (acc : List (String × ℚ)),
      (keysOf entries).Nodup → (∀ k ∈ keysOf entries, k ∉ keysOf acc) →
      expFold entries acc = acc ++ entries.map
        (fun p => (p.1, expCoerce p.2)) := by
  intro entries
  induction entries with
  | nil => intro acc _ _; simp [expFold]
  | cons e rest ih =>
    intro acc hnd hdisj
    obtain ⟨k, v⟩ := e
    have hknotin : k ∉ keysOf rest := by
      have h1 := hnd
      simp only [keysOf, List.map_cons] at h1
      exact (List.nodup_cons.mp h1).1
    have hndrest : (keysOf rest).Nodup := by
      have h1 := hnd
      simp only [keysOf, List.map_cons] at h1
      exact (List.nodup_cons.mp h1).2
    rw [expFold]
    rw [upsert_of_not_mem _ (hdisj k (by simp [keysOf]))]
    rw [ih _ hndrest (by
      intro x hx
      unfold keysOf
      simp only [List.map_append, List.mem_append]
      rintro (hm | hm)
      · exact hdisj x (List.mem_cons_of_mem _ hx) hm
      · simp at hm
        exact hknotin (hm ▸ hx))]
    simp

theorem rowValuesFold_spec :
    ∀ (entries : List (String × JsValue)) (acc : List (String × String)),
      (keysOf entries).Nodup → (∀ k ∈ keysOf entries, k ∉ keysOf acc) →
      (∀ k ∈ keysOf entries, k ≠ "values" ∧ k ≠ "exponents") →
      rowValuesFold entries acc =
        acc ++ entries.map
          (fun p => (p.1, jsToString (nullishD p.2 (.vStr "")))) := by
  intro entries
  induction entries with
  | nil => intro acc _ _ _; simp [rowValuesFold]
  | cons e rest ih =>
    intro acc hnd hdisj hskip
    obtain ⟨k, v⟩ := e
    have hknotin : k ∉ keysOf rest := by
      have h1 := hnd
      simp only [keysOf, List.map_cons] at h1
      exact (List.nodup_cons.mp h1).1
    have hndrest : (keysOf rest).Nodup := by
      have h1 := hnd
      simp only [keysOf, List.map_cons] at h1
      exact (List.nodup_cons.mp h1).2
    have hkskip := hskip k (by simp [keysOf])
    rw [rowValuesFold]
    rw [if_neg (by simp [hkskip.1, hkskip.2])]
    rw [upsert_of_not_mem _ (hdisj k (by simp [keysOf]))]
    rw [ih _ hndrest (by
      intro x hx
      unfold keysOf
      simp only [List.map_append, List.mem_append]
      rintro (hm | hm)
      · exact hdisj x (List.mem_cons_of_mem _ hx) hm
      · simp at hm
        exact hknotin (hm ▸ hx))
      (fun x hx => hskip x (List.mem_cons_of_mem _ hx))]
    simp

theorem tupleArrayMapFold_spec :
    ∀ (entries : List (String × JsValue))
      (acc : List (String × List TupleArrayRow)),
      (keysOf entries).Nodup → (∀ k ∈ keysOf entries, k ∉ keysOf acc) →
      (∀ p ∈ entries, isArrayVal p.2 = true) →
      tupleArrayMapFold entries acc =
        acc ++ entries.map
          (fun p => (p.1, (arrElems p.2).map sanitizeTupleArrayRow)) := by
  intro entries
  induction entries with
  | nil => intro acc _ _ _; simp [tupleArrayMapFold]
  | cons e rest ih =>
    intro acc hnd hdisj harr
    obtain ⟨k, v⟩ := e
    have hknotin : k ∉ keysOf rest := by
      have h1 := hnd
      simp only [keysOf, List.map_cons] at h1
      exact (List.nodup_cons.mp h1).1
    have hndrest : (keysOf rest).Nodup := by
      have h1 := hnd
      simp only [keysOf, List.map_cons] at h1
      exact (List.nodup_cons.mp h1).2
    rw [tupleArrayMapFold]
    rw [if_pos (harr (k, v) (by simp))]
    rw [upsert_of_not_mem _ (hdisj k (by simp [keysOf]))]
    rw [ih _ hndrest (by
      intro x hx
      unfold keysOf
      simp only [List.map_append, List.mem_append]
      rintro (hm | hm)
      · exact hdisj x (List.mem_cons_of_mem _ hx) hm
      · simp at hm
        exact hknotin (hm ▸ hx))
      (fun p hp => harr p (by simp [hp]))]
    simp

theorem methodStatesFold_spec :
    ∀ (entries : List (String × JsValue))
      (acc : List (String × MethodState)),
      (keysOf entries).Nodup → (∀ k ∈ keysOf entries, k ∉ keysOf acc) →
      methodStatesFold entries acc =
        acc ++ entries.map (fun p => (p.1, sanitizeMethodState p.2)) := by
  intro entries
  induction entries with
  | nil => intro acc _ _; simp [methodStatesFold]
  | cons e rest ih =>
    intro acc hnd hdisj
    obtain ⟨k, v⟩ := e
    have hknotin : k ∉ keysOf rest := by
      have h1 := hnd
      simp only [keysOf, List.map_cons] at h1
      exact (List.nodup_cons.mp h1).1
    have hndrest : (keysOf rest).Nodup := by
      have h1 := hnd
      simp only [keysOf, List.map_cons] at h1
      exact (List.nodup_cons.mp h1).2
    rw [methodStatesFold]
    rw [upsert_of_not_mem _ (hdisj k (by simp [keysOf]))]
    rw [ih _ hndrest (by
      intro x hx
      unfold keysOf
      simp only [List.map_append, List.mem_append]
      rintro (hm | hm)
      · exact hdisj x (List.mem_cons_of_mem _ hx) hm
      · simp at hm
        exact hknotin (hm ▸ hx))]
    simp

theorem keysOf_map_pair {α β : Type} (m : List (String × α)) (f : α → β) :
    keysOf (m.map fun p => (p.1, f p.2)) = keysOf m := by
  unfold keysOf
  rw [List.map_map]
  apply List.map_congr_left
  intro p _
  rfl

theorem rowToJs_roundtrip {r : TupleArrayRow} (h : RowWF r) :
    sanitizeTupleArrayRow (rowToJs r) = r := by
  obtain ⟨hv, hskip, he⟩ := h
  obtain ⟨vs, es⟩ := r
  simp only at hv hskip he
  have key : sanitizeTupleArrayRow (rowToJs ⟨vs, es⟩) =
      { values := rowValuesFold (vs.map fun p => (p.1, JsValue.vStr p.2)) [],
        exponents := expFold (es.map fun p => (p.1, JsValue.vNum p.2)) [] } := rfl
  rw [key]
  rw [rowValuesFold_spec _ []
    (by rw [keysOf_map_pair]; exact hv)
    (by simp [keysOf])
    (by simpa only [keysOf_map_pair] using hskip)]
  rw [expFold_spec _ []
    (by rw [keysOf_map_pair]; exact he)
    (by simp [keysOf])]
  simp only [List.nil_append, List.map_map, TupleArrayRow.mk.injEq]
  constructor
  · rw [show vs = vs.map id by simp]
    rw [List.map_map]
    apply List.map_congr_left
    intro p _
    rfl
  · rw [show es = es.map id by simp]
    rw [List.map_map]
    apply List.map_congr_left
    intro p _
    simp [Function.comp, expCoerce_vNum]

theorem methodStateToJs_roundtrip {m : MethodState} (h : MethodStateWF m) :
    sanitizeMethodState (methodStateToJs m) = m := by
  obtain ⟨hv, he, ht, hrows⟩ := h
  obtain ⟨vs, es, ta, pv, ps, le⟩ := m
  simp only at hv he ht hrows
  have hvals : strMapFold (vs.map fun p => (p.1, JsValue.vStr p.2)) [] = vs := by
    rw [strMapFold_spec _ [] (by rw [keysOf_map_pair]; exact hv) (by simp [keysOf])]
    simp only [List.nil_append, List.map_map]
    refine (List.map_congr_left ?_).trans (List.map_id vs)
    intro p _
    rfl
  have hexps : expFold (es.map fun p => (p.1, JsValue.vNum p.2)) [] = es := by
    rw [expFold_spec _ [] (by rw [keysOf_map_pair]; exact he) (by simp [keysOf])]
    simp only [List.nil_append, List.map_map]
    refine (List.map_congr_left ?_).trans (List.map_id es)
    intro p _
    show (p.1, expCoerce (JsValue.vNum p.2)) = p
    rw [expCoerce_vNum]
  have hta : tupleArrayMapFold
      (ta.map fun p => (p.1, JsValue.vArr (p.2.map rowToJs))) [] = ta := by
    rw [tupleArrayMapFold_spec _ []
      (by
        have hk : keysOf (ta.map fun p => (p.1, JsValue.vArr (p.2.map rowToJs))) =
            keysOf ta :=
          keysOf_map_pair ta fun rows => JsValue.vArr (rows.map rowToJs)
        rw [hk]
        exact ht)
      (by simp [keysOf])
      (by
        intro p hp
        simp only [List.mem_map] at hp
        obtain ⟨q, hq, rfl⟩ := hp
        rfl)]
    simp only [List.nil_append, List.map_map]
    refine (List.map_congr_left ?_).trans (List.map_id ta)
    intro p hp
    have hp2 : ∀ r ∈ p.2, sanitizeTupleArrayRow (rowToJs r) = r := fun r hr =>
      rowToJs_roundtrip (hrows p.2 (List.mem_map.mpr ⟨p, hp, rfl⟩) r hr)
    show (p.1, (p.2.map rowToJs).map sanitizeTupleArrayRow) = p
    rw [List.map_map]
    rw [show p.2.map (sanitizeTupleArrayRow ∘ rowToJs) = p.2.map id from
      List.map_congr_left fun r hr => hp2 r hr]
    rw [List.map_id]
  rcases ps with _ | l1 <;> rcases le with _ | l2
  · have key : sanitizeMethodState (methodStateToJs ⟨vs, es, ta, pv, none, none⟩) =
        { values := strMapFold (vs.map fun p => (p.1, JsValue.vStr p.2)) [],
          exponents := expFold (es.map fun p => (p.1, JsValue.vNum p.2)) [],
          tupleArrays := tupleArrayMapFold
            (ta.map fun p => (p.1, JsValue.vArr (p.2.map rowToJs))) [],
          payableValue := pv, params := none, legacyExponents := none } := rfl
    rw [key, hvals, hexps, hta]
  · have hl2 : (l2.map JsValue.vNum).map expCoerce = l2 := by
      rw [List.map_map]
      rw [show (expCoerce ∘ JsValue.vNum) = id from funext fun q => expCoerce_vNum q]
      exact List.map_id l2
    have key : sanitizeMethodState
        (methodStateToJs ⟨vs, es, ta, pv, none, some l2⟩) =
        { values := strMapFold (vs.map fun p => (p.1, JsValue.vStr p.2)) [],
          exponents := expFold (es.map fun p => (p.1, JsValue.vNum p.2)) [],
          tupleArrays := tupleArrayMapFold
            (ta.map fun p => (p.1, JsValue.vArr (p.2.map rowToJs))) [],
          payableValue := pv, params := none,
          legacyExponents := some ((l2.map JsValue.vNum).map expCoerce) } := rfl
    rw [key, hvals, hexps, hta, hl2]
  · have hp1 : (l1.map JsValue.vStr).map toInputString = l1 := by
      rw [List.map_map]
      rw [show (toInputString ∘ JsValue.vStr) = id from funext fun s => rfl]
      exact List.map_id l1
    have key : sanitizeMethodState
        (methodStateToJs ⟨vs, es, ta, pv, some l1, none⟩) =
        { values := strMapFold (vs.map fun p => (p.1, JsValue.vStr p.2)) [],
          exponents := expFold (es.map fun p => (p.1, JsValue.vNum p.2)) [],
          tupleArrays := tupleArrayMapFold
            (ta.map fun p => (p.1, JsValue.vArr (p.2.map rowToJs))) [],
          payableValue := pv,
          params := some ((l1.map JsValue.vStr).map toInputString),
          legacyExponents := none } := rfl
    rw [key, hvals, hexps, hta, hp1]
  · have hp1 : (l1.map JsValue.vStr).map toInputString = l1 := by
      rw [List.map_map]
      rw [show (toInputString ∘ JsValue.vStr) = id from funext fun s => rfl]
      exact List.map_id l1
    have hl2 : (l2.map JsValue.vNum).map expCoerce = l2 := by
      rw [List.map_map]
      rw [show (expCoerce ∘ JsValue.vNum) = id from funext fun q => expCoerce_vNum q]
      exact List.map_id l2
    have key : sanitizeMethodState
        (methodStateToJs ⟨vs, es, ta, pv, some l1, some l2⟩) =
        { values := strMapFold (vs.map fun p => (p.1, JsValue.vStr p.2)) [],
          exponents := expFold (es.map fun p => (p.1, JsValue.vNum p.2)) [],
          tupleArrays := tupleArrayMapFold
            (ta.map fun p => (p.1, JsValue.vArr (p.2.map rowToJs))) [],
          payableValue := pv,
          params := some ((l1.map JsValue.vStr).map toInputString),
          legacyExponents := some ((l2.map JsValue.vNum).map expCoerce) } := rfl
    rw [key, hvals, hexps, hta, hp1, hl2]

theorem panelToJs_roundtrip (p : Panel) :
    normalizePanelValues (panelToJs p) = p := by
  obtain ⟨f1, f2, f3, f4, f5, f6, f7, f8⟩ := p
  unfold normalizePanelValues panelToJs panelField
  rfl

theorem jsToString_orD_vStr (s d : String) :
    jsToString (orD (JsValue.vStr s) (JsValue.vStr d)) =
      if s.isEmpty then d else s := by
  unfold orD
  rw [show jsTruthy (JsValue.vStr s) = !s.isEmpty from rfl]
  cases hs : s.isEmpty
  · rfl
  · rfl

theorem sanitizeTemplate_templateToJs (gid2 now2 : String) {t : Template}
    (hw : TemplateWF t) :
    sanitizeTemplate gid2 now2 (templateToJs t) =
      some { id := if t.id.isEmpty then gid2 else t.id,
             name := t.name, panel := t.panel,
             methodStates := t.methodStates,
             createdAt := if t.createdAt.isEmpty then now2 else t.createdAt,
             updatedAt := if t.updatedAt.isEmpty then now2 else t.updatedAt } := by
  obtain ⟨hne, htrim, hnd, hms⟩ := hw
  obtain ⟨id0, name0, p0, ms0, ca, ua⟩ := t
  simp only at hne htrim hnd hms ⊢
  have hnb : name0.isEmpty = false := by
    cases hb : name0.isEmpty
    · rfl
    · exact absurd hb hne
  have hmsEq : sanitizeMethodStates
      (JsValue.vObj (ms0.map fun p => (p.1, methodStateToJs p.2))) = ms0 := by
    have key : sanitizeMethodStates
        (JsValue.vObj (ms0.map fun p => (p.1, methodStateToJs p.2))) =
        methodStatesFold (ms0.map fun p => (p.1, methodStateToJs p.2)) [] := rfl
    rw [key]
    rw [methodStatesFold_spec _ []
      (by
        have hk : keysOf (ms0.map fun p => (p.1, methodStateToJs p.2)) =
            keysOf ms0 := keysOf_map_pair ms0 methodStateToJs
        rw [hk]
        exact hnd)
      (by simp [keysOf])]
    simp only [List.nil_append, List.map_map]
    refine (List.map_congr_left ?_).trans (List.map_id ms0)
    intro p hp
    show (p.1, sanitizeMethodState (methodStateToJs p.2)) = p
    rw [methodStateToJs_roundtrip (hms p.2 (List.mem_map.mpr ⟨p, hp, rfl⟩))]
  show ((if (jsTrim (jsToString (orD (JsValue.vStr name0)
          (JsValue.vStr "")))).isEmpty then none
        else some
          { id := jsToString (orD (JsValue.vStr id0) (JsValue.vStr gid2)),
            name := jsTrim (jsToString (orD (JsValue.vStr name0)
              (JsValue.vStr ""))),
            panel := normalizePanelValues (orD (panelToJs p0)
              (JsValue.vObj [])),
            methodStates := sanitizeMethodStates (JsValue.vObj
              (ms0.map fun p => (p.1, methodStateToJs p.2))),
            createdAt := jsToString (orD (JsValue.vStr ca)
              (JsValue.vStr now2)),
            updatedAt := jsToString (orD (JsValue.vStr ua)
              (JsValue.vStr now2)) }) : Option Template) =
    some { id := if id0.isEmpty then gid2 else id0,
           name := name0, panel := p0, methodStates := ms0,
           createdAt := if ca.isEmpty then now2 else ca,
           updatedAt := if ua.isEmpty then now2 else ua }
  rw [jsToString_orD_vStr name0 ""]
  have hname2 : jsTrim (if name0.isEmpty = true then "" else name0) = name0 := by
    rw [hnb, if_neg Bool.false_ne_true]
    exact htrim
  rw [hname2]
  have hcond : ¬(name0.isEmpty = true) := by rw [hnb]; exact Bool.false_ne_true
  rw [if_neg hcond]
  rw [jsToString_orD_vStr id0 gid2, jsToString_orD_vStr ca now2,
    jsToString_orD_vStr ua now2, hmsEq]
  rw [show orD (panelToJs p0) (JsValue.vObj []) = panelToJs p0 from rfl,
    panelToJs_roundtrip p0]

/-- C8: template sanitisation is stable under the export/import round
trip.  For every template `t` produced by `sanitizeTemplate`, applying
`sanitizeTemplate` again to `t`'s exported JSON value (`templateToJs t`)
succeeds and yields a template with identical `name`, `panel` and
`methodStates` content; the `id` is preserved when non-empty (it is only
replaced by the freshly generated `gid2` when empty), and each timestamp
is preserved when non-empty and refreshed to the current time `now2`
otherwise. -/
theorem claim_C8 {gid now gid2 now2 : String} {raw : JsValue} {t : Template}
    (h : sanitizeTemplate gid now raw = some t) :
    ∃ t2, sanitizeTemplate gid2 now2 (templateToJs t) = some t2 ∧
      t2.name = t.name ∧ t2.panel = t.panel ∧
      t2.methodStates = t.methodStates ∧
      t2.id = (if t.id.isEmpty then gid2 else t.id) ∧
      t2.createdAt = (if t.createdAt.isEmpty then now2 else t.createdAt) ∧
      t2.updatedAt = (if t.updatedAt.isEmpty then now2 else t.updatedAt) :=
  ⟨_, sanitizeTemplate_templateToJs gid2 now2 (sanitizeTemplate_WF h),
    rfl, rfl, rfl, rfl, rfl, rfl⟩

theorem claim_C8_witness :
    ∃ t2, sanitizeTemplate "g2" "n2" (templateToJs
      { id := "g", name := "a",
        panel := { rpcListText := DEFAULTS_rpcList,
                   selectedRpc := DEFAULTS_rpcList,
                   explorerBase := DEFAULTS_explorerBase,
                   explorerApi := DEFAULTS_explorerApi,
                   explorerApiKey := DEFAULTS_explorerApiKey,
                   chainId := DEFAULTS_chainId,
                   contractAddress := DEFAULTS_contractAddress,
                   abiText := DEFAULTS_abi },
        methodStates := [], createdAt := "n", updatedAt := "n" }) = some t2 ∧
      t2.name = "a" ∧
      t2.panel = { rpcListText := DEFAULTS_rpcList,
                   selectedRpc := DEFAULTS_rpcList,
                   explorerBase := DEFAULTS_explorerBase,
                   explorerApi := DEFAULTS_explorerApi,
                   explorerApiKey := DEFAULTS_explorerApiKey,
                   chainId := DEFAULTS_chainId,
                   contractAddress := DEFAULTS_contractAddress,
                   abiText := DEFAULTS_abi } ∧
      t2.methodStates = [] ∧ t2.id = "g" ∧
      t2.createdAt = "n" ∧ t2.updatedAt = "n" := by
  have h : sanitizeTemplate "g" "n" (.vObj [("name", .vStr "a")]) =
      some { id := "g", name := "a",
             panel := { rpcListText := DEFAULTS_rpcList,
                        selectedRpc := DEFAULTS_rpcList,
                        explorerBase := DEFAULTS_explorerBase,
                        explorerApi := DEFAULTS_explorerApi,
                        explorerApiKey := DEFAULTS_explorerApiKey,
                        chainId := DEFAULTS_chainId,
                        contractAddress := DEFAULTS_contractAddress,
                        abiText := DEFAULTS_abi },
             methodStates := [], createdAt := "n", updatedAt := "n" } := rfl
  exact claim_C8 h

theorem mem_loadTemplatesFromStorage {p : String → Option JsValue}
    {g n : Nat → String} {stored : Option String} {t : Template}
    (h : t ∈ loadTemplatesFromStorage p g n stored) :
    ∃ gid now raw, sanitizeTemplate gid now raw = some t := by
  cases stored with
  | none =>
    rw [show loadTemplatesFromStorage p g n none = [] from rfl] at h
    exact absurd h (List.not_mem_nil t)
  | some s =>
    rw [show loadTemplatesFromStorage p g n (some s) =
        (if s.isEmpty then []
         else
           match p s with
           | none => []
           | some parsed =>
             ((extractTemplateList parsed).enum.map
               (fun q => sanitizeTemplate (g q.1) (n q.1) q.2)).filterMap id)
      from rfl] at h
    split at h
    · exact absurd h (List.not_mem_nil t)
    · split at h
      · exact absurd h (List.not_mem_nil t)
      · rw [List.mem_filterMap] at h
        obtain ⟨o, ho, hoo⟩ := h
        rw [List.mem_map] at ho
        obtain ⟨q, hq, rfl⟩ := ho
        exact ⟨g q.1, n q.1, q.2, hoo⟩

/-- C5 (amended): loading templates from local storage is total and never
propagates an error: a missing stored value, an empty stored string, and
a string the JSON parser rejects all yield the empty list.  Every
template in the returned list has a non-empty, whitespace-trimmed name
(entries without a usable name are dropped).  A missing or otherwise
falsy `id` is replaced by the generated id, and generated ids are never
empty; however an entry whose raw `id` is truthy keeps `String(id)`,
which for a non-string value such as `[]` can be the empty string, so
ids of loaded templates are not always non-empty. -/
theorem claim_C5 :
    (∀ (p : String → Option JsValue) (g n : Nat → String),
        loadTemplatesFromStorage p g n none = []) ∧
    (∀ (p : String → Option JsValue) (g n : Nat → String),
        loadTemplatesFromStorage p g n (some "") = []) ∧
    (∀ (p : String → Option JsValue) (g n : Nat → String) (s : String),
        p s = none → loadTemplatesFromStorage p g n (some s) = []) ∧
    (∀ (p : String → Option JsValue) (g n : Nat → String)
        (stored : Option String) (t : Template),
        t ∈ loadTemplatesFromStorage p g n stored →
        ¬t.name.isEmpty ∧ jsTrim t.name = t.name) ∧
    (∀ (gid now : String) (raw : JsValue) (t : Template),
        sanitizeTemplate gid now raw = some t →
        jsTruthy (propGet raw "id") = false → t.id = gid) ∧
    (∀ (nowMs : Nat) (randHex : String),
        ¬(generateTemplateId nowMs randHex).isEmpty) := by
  refine ⟨fun p g n => rfl, fun p g n => rfl, ?_, ?_, ?_, ?_⟩
  · intro p g n s hp
    show (if s.isEmpty then []
          else
            match p s with
            | none => []
            | some parsed =>
              ((extractTemplateList parsed).enum.map
                (fun q => sanitizeTemplate (g q.1) (n q.1) q.2)).filterMap id)
      = []
    rw [hp]
    cases hs : s.isEmpty
    · rfl
    · rfl
  · intro p g n stored t hmem
    obtain ⟨gid, now, raw, h⟩ := mem_loadTemplatesFromStorage hmem
    have hw := sanitizeTemplate_WF h
    exact ⟨hw.1, hw.2.1⟩
  · intro gid now raw t h hid
    unfold sanitizeTemplate at h
    dsimp only at h
    split_ifs at h with h1 h2
    rw [Option.some.injEq] at h
    subst h
    show jsToString (orD (propGet raw "id") (JsValue.vStr gid)) = gid
    unfold orD
    rw [hid]
    rfl
  · intro nowMs randHex h
    rw [String.isEmpty_iff] at h
    have hl := congrArg String.length h
    rw [show generateTemplateId nowMs randHex =
      "tpl_" ++ toString nowMs ++ "_" ++ randHex from rfl] at hl
    rw [String.length_append, String.length_append, String.length_append] at hl
    rw [show ("tpl_" : String).length = 4 from rfl,
      show ("_" : String).length = 1 from rfl,
      show ("" : String).length = 0 from rfl] at hl
    omega

theorem claim_C5_witness :
    loadTemplatesFromStorage (fun _ => none) (fun _ => "g") (fun _ => "t")
        none = [] ∧
    loadTemplatesFromStorage (fun _ => none) (fun _ => "g") (fun _ => "t")
        (some "zz") = [] ∧
    ¬(generateTemplateId 5 "ab").isEmpty :=
  ⟨claim_C5.1 (fun _ => none) (fun _ => "g") (fun _ => "t"),
   claim_C5.2.2.1 (fun _ => none) (fun _ => "g") (fun _ => "t") "zz" rfl,
   claim_C5.2.2.2.2.2 5 "ab"⟩

theorem claim_C5_counterexample :
    ∃ t, t ∈ loadTemplatesFromStorage
        (fun _ => some (.vArr [.vObj [("name", .vStr "a"), ("id", .vArr [])]]))
        (fun _ => "tpl_1_ab") (fun _ => "2024") (some "x") ∧
      t.id = "" := by
  refine ⟨{ id := "", name := "a",
            panel := { rpcListText := DEFAULTS_rpcList,
                       selectedRpc := DEFAULTS_rpcList,
                       explorerBase := DEFAULTS_explorerBase,
                       explorerApi := DEFAULTS_explorerApi,
                       explorerApiKey := DEFAULTS_explorerApiKey,
                       chainId := DEFAULTS_chainId,
                       contractAddress := DEFAULTS_contractAddress,
                       abiText := DEFAULTS_abi },
            methodStates := [], createdAt := "2024", updatedAt := "2024" },
    ?_, rfl⟩
  have h : loadTemplatesFromStorage
      (fun _ => some (.vArr [.vObj [("name", .vStr "a"), ("id", .vArr [])]]))
      (fun _ => "tpl_1_ab") (fun _ => "2024") (some "x") =
      [{ id := "", name := "a",
         panel := { rpcListText := DEFAULTS_rpcList,
                    selectedRpc := DEFAULTS_rpcList,
                    explorerBase := DEFAULTS_explorerBase,
                    explorerApi := DEFAULTS_explorerApi,
                    explorerApiKey := DEFAULTS_explorerApiKey,
                    chainId := DEFAULTS_chainId,
                    contractAddress := DEFAULTS_contractAddress,
                    abiText := DEFAULTS_abi },
         methodStates := [], createdAt := "2024", updatedAt := "2024" }] := rfl
  rw [h]
  exact List.mem_singleton.mpr rfl

end Dash
